import Mathlib

/-!
Verification of the parquetastic metadata-decoding core.

The definitions below are shallow embeddings of the JavaScript sources
`src/parquetParser.js`, `src/thrift.js` and `src/statsFormatter.js`:
byte buffers become `List Nat` (each entry a byte value), `Uint8Array.slice`
becomes `List.drop`/`List.take`, JavaScript exceptions become `Except`
errors, and `BigInt`/`Number` arithmetic becomes `Nat`/`Int` arithmetic.
Theorems about the claims of the specification follow the definitions.
-/

namespace Parquetastic

/-- Byte access `buf[i]` on a `Uint8Array`; out-of-range access yields 0
(the JavaScript code only indexes in bounds wherever this model is used). -/
def byteAt (l : List Nat) (i : Nat) : Nat := (l[i]?).getD 0

/-- `file.slice(start, end).arrayBuffer()` / `Uint8Array.slice(start, end)`:
the bytes of the half-open range, clamped to the available data
(`readFileSlice` in `parquetParser.js`). -/
def readFileSlice (file : List Nat) (start stop : Nat) : List Nat :=
  (file.drop start).take (stop - start)

/-- `bytesEqual` from `parquetParser.js`: length check plus element-wise
comparison loop. -/
def bytesEqual (a b : List Nat) : Bool :=
  a.length == b.length && (List.zip a b).all fun p => p.1 == p.2

/-- The magic marker bytes, ASCII "PAR1" (`PARQUET_MAGIC`). -/
def PARQUET_MAGIC : List Nat := [0x50, 0x41, 0x52, 0x31]

/-- `DataView.getUint32(off, true)`: little-endian unsigned 32-bit read. -/
def readUint32LE (b : List Nat) (off : Nat) : Nat :=
  byteAt b off + byteAt b (off + 1) * 256 + byteAt b (off + 2) * 65536 +
    byteAt b (off + 3) * 16777216

/-- The distinct failure messages thrown by `parseParquetFile` /
`parseParquetFileStreaming` before the footer bytes are handed to the
Thrift decoder. -/
inductive ParseError where
  | fileTooSmall
  | invalidHeaderMagic
  | invalidFooterMagic
  | invalidFooterLength
deriving DecidableEq, Repr

/-- The values computed by the top-level parse entry points once footer
validation succeeds: the byte range handed to `TCompactProtocolReader`
for the `FileMetaData` decode, together with the bookkeeping fields the
functions return. -/
structure FooterInfo where
  fileSize : Nat
  footerLength : Nat
  footerStart : Nat
  footerBytes : List Nat
deriving DecidableEq, Repr

/-- `parseParquetFile(buffer)` (`parquetParser.js`, the buffer-based entry
point), up to the point where the footer bytes are passed to the Thrift
`FileMetaData` decoder. -/
def parseParquetFile (bytes : List Nat) : Except ParseError FooterInfo :=
  let fileSize := bytes.length
  if fileSize < 12 then .error .fileTooSmall
  else
    let headerMagic := bytes.take 4
    if !bytesEqual headerMagic PARQUET_MAGIC then .error .invalidHeaderMagic
    else
      let footerMagic := (bytes.drop (fileSize - 4)).take 4
      if !bytesEqual footerMagic PARQUET_MAGIC then .error .invalidFooterMagic
      else
        let footerLength := readUint32LE bytes (fileSize - 8)
        if footerLength > fileSize - 8 then .error .invalidFooterLength
        else
          let footerStart := fileSize - 8 - footerLength
          .ok ⟨fileSize, footerLength, footerStart,
               (bytes.drop footerStart).take footerLength⟩

/-- `parseParquetFileStreaming(file)` (`parquetParser.js`, the streaming
entry point), up to the same point.  The `File` object is modelled by its
byte contents; `readFileSlice` stands for the awaited range reads. -/
def parseParquetFileStreaming (file : List Nat) : Except ParseError FooterInfo :=
  let fileSize := file.length
  if fileSize < 12 then .error .fileTooSmall
  else
    let headerMagic := readFileSlice file 0 4
    if !bytesEqual headerMagic PARQUET_MAGIC then .error .invalidHeaderMagic
    else
      let footerEnd := readFileSlice file (fileSize - 8) fileSize
      let footerMagic := (footerEnd.drop 4).take 4
      if !bytesEqual footerMagic PARQUET_MAGIC then .error .invalidFooterMagic
      else
        let footerLength := readUint32LE footerEnd 0
        if footerLength > fileSize - 8 then .error .invalidFooterLength
        else
          let footerStart := fileSize - 8 - footerLength
          .ok ⟨fileSize, footerLength, footerStart,
               readFileSlice file footerStart (footerStart + footerLength)⟩

/-- The two kinds of per-column-chunk page indexes
(`req.type` in `parsePageIndexesStreaming`). -/
inductive IndexKind where
  | columnIndex
  | offsetIndex
deriving DecidableEq, Repr

/-- A read request collected by `parsePageIndexesStreaming`: target slot
(row-group index, column index, index kind) plus the byte range. -/
structure ReadRequest where
  rgIdx : Nat
  colIdx : Nat
  type : IndexKind
  offset : Nat
  length : Nat
deriving DecidableEq, Repr

/-- A coalesced batch (`currentBatch` in `parsePageIndexesStreaming`):
covered byte range `[start, end)` plus the requests it serves. -/
structure Batch where
  start : Nat
  stop : Nat
  requests : List ReadRequest
deriving DecidableEq, Repr

/-- `MAX_GAP = 64 * 1024`: the 64 KiB gap threshold of
`parsePageIndexesStreaming`. -/
def MAX_GAP : Nat := 64 * 1024

/-- One step of the batch-building loop of `parsePageIndexesStreaming`
(lines 218-238): the accumulator is the finished batches plus the
optional running batch. -/
def addRequest (gap : Nat) (acc : List Batch × Option Batch) (req : ReadRequest) :
    List Batch × Option Batch :=
  match acc.2 with
  | none =>
    (acc.1, some ⟨req.offset, req.offset + req.length, [req]⟩)
  | some currentBatch =>
    if req.offset ≤ currentBatch.stop + gap then
      (acc.1, some ⟨currentBatch.start, max currentBatch.stop (req.offset + req.length),
                    currentBatch.requests ++ [req]⟩)
    else
      (acc.1 ++ [currentBatch], some ⟨req.offset, req.offset + req.length, [req]⟩)

/-- The batch-building loop, including the final `if (currentBatch)
batches.push(currentBatch)`. -/
def buildBatches (gap : Nat) (reqs : List ReadRequest) : List Batch :=
  match reqs.foldl (addRequest gap) ([], none) with
  | (batches, none) => batches
  | (batches, some currentBatch) => batches ++ [currentBatch]

/-- The request ordering used by `readRequests.sort((a, b) => a.offset - b.offset)`. -/
def reqLE (a b : ReadRequest) : Prop := a.offset ≤ b.offset

instance : DecidableRel reqLE := fun a b => Nat.decLe a.offset b.offset

instance : IsTotal ReadRequest reqLE := ⟨fun a b => Nat.le_total a.offset b.offset⟩

instance : IsTrans ReadRequest reqLE := ⟨fun _ _ _ h h' => Nat.le_trans h h'⟩

/-- `readRequests.sort((a, b) => a.offset - b.offset)`: a stable sort by
offset ascending (modelled by insertion sort, which is stable like
`Array.prototype.sort`). -/
def sortRequests (reqs : List ReadRequest) : List ReadRequest :=
  reqs.insertionSort reqLE

/-- One entry of the `pageIndexes[rgIdx][colIdx]` result structure:
`{ columnIndex: ..., offsetIndex: ... }`, `null` rendered as `none`.
`CI` and `OI` are the decoded `ColumnIndex` / `OffsetIndex` values
(their Thrift decoders live in the generated `parquet_types.js`). -/
structure PageIndexSlot (CI OI : Type) where
  columnIndex : Option CI
  offsetIndex : Option OI
deriving DecidableEq, Repr

/-- In-place element update `l[i] = f(l[i])`; out-of-range indexes leave
the list unchanged. -/
def updateAt {α : Type} : List α → Nat → (α → α) → List α
  | [], _, _ => []
  | x :: xs, 0, f => f x :: xs
  | x :: xs, n + 1, f => x :: updateAt xs n f

/-- Lookup `pageIndexes[rg]?.[col]?`. -/
def slotGet {CI OI : Type} (st : List (List (PageIndexSlot CI OI))) (rg col : Nat) :
    Option (PageIndexSlot CI OI) :=
  (st[rg]?).bind fun row => row[col]?

/-- The per-request body of the batch loop (lines 257-275 of
`parquetParser.js`): slice the request's bytes out of the fetched batch
buffer and try to decode them; a decode failure is caught
(`catch (e) { console.warn(...) }`) and leaves the slot untouched.
`dCI` / `dOI` stand for the Thrift struct decoders of `parquet_types.js`
run inside the `try`; `none` models a thrown decode exception. -/
def applyRequest {CI OI : Type} (dCI : List Nat → Option CI) (dOI : List Nat → Option OI)
    (batchStart : Nat) (batchBytes : List Nat)
    (st : List (List (PageIndexSlot CI OI))) (req : ReadRequest) :
    List (List (PageIndexSlot CI OI)) :=
  let localOffset := req.offset - batchStart
  let indexBytes := (batchBytes.drop localOffset).take req.length
  match req.type with
  | IndexKind.columnIndex =>
    match dCI indexBytes with
    | some v =>
      updateAt st req.rgIdx fun row =>
        updateAt row req.colIdx fun s => { s with columnIndex := some v }
    | none => st
  | IndexKind.offsetIndex =>
    match dOI indexBytes with
    | some v =>
      updateAt st req.rgIdx fun row =>
        updateAt row req.colIdx fun s => { s with offsetIndex := some v }
    | none => st

/-- Processing of one batch: a single range read covering
`[batch.start, batch.end)`, then the per-request loop. -/
def processBatch {CI OI : Type} (dCI : List Nat → Option CI) (dOI : List Nat → Option OI)
    (file : List Nat) (st : List (List (PageIndexSlot CI OI))) (batch : Batch) :
    List (List (PageIndexSlot CI OI)) :=
  let batchBytes := readFileSlice file batch.start batch.stop
  batch.requests.foldl (applyRequest dCI dOI batch.start batchBytes) st

/-- The pre-allocated result structure (lines 244-251): one
`{ columnIndex: null, offsetIndex: null }` slot per column chunk.
`shape` lists the column count of each row group. -/
def initIndexes (CI OI : Type) (shape : List Nat) : List (List (PageIndexSlot CI OI)) :=
  shape.map fun n => List.replicate n ⟨none, none⟩

/-- `parsePageIndexesStreaming` from the sorted/batched requests on:
sort, coalesce under the 64 KiB gap, then fetch and decode each batch.
The request-collection prologue (lines 182-208) is abstracted by taking
`reqs` as input. -/
def parsePageIndexesStreamingModel {CI OI : Type}
    (dCI : List Nat → Option CI) (dOI : List Nat → Option OI)
    (file : List Nat) (shape : List Nat) (reqs : List ReadRequest) :
    List (List (PageIndexSlot CI OI)) :=
  (buildBatches MAX_GAP (sortRequests reqs)).foldl (processBatch dCI dOI file)
    (initIndexes CI OI shape)

/-- Batch processing with a fallible range read (`readFileSlice` throwing
an `IoError`): the `await readFileSlice(file, batch.start, batch.end)`
at line 255 is not wrapped in any `try`, so a read failure propagates. -/
def processBatchFallible {CI OI ε : Type} (dCI : List Nat → Option CI) (dOI : List Nat → Option OI)
    (readRange : Nat → Nat → Except ε (List Nat))
    (st : List (List (PageIndexSlot CI OI))) (batch : Batch) :
    Except ε (List (List (PageIndexSlot CI OI))) := do
  let batchBytes ← readRange batch.start batch.stop
  pure (batch.requests.foldl (applyRequest dCI dOI batch.start batchBytes) st)

/-- `parsePageIndexesStreaming` with a fallible byte source. -/
def parsePageIndexesStreamingFallible {CI OI ε : Type}
    (dCI : List Nat → Option CI) (dOI : List Nat → Option OI)
    (readRange : Nat → Nat → Except ε (List Nat))
    (shape : List Nat) (reqs : List ReadRequest) :
    Except ε (List (List (PageIndexSlot CI OI))) :=
  (buildBatches MAX_GAP (sortRequests reqs)).foldlM (processBatchFallible dCI dOI readRange)
    (initIndexes CI OI shape)

/-- One column chunk's index-location fields as read by the legacy
`parsePageIndexes` loop (`column_index_offset`/`column_index_length`,
`offset_index_offset`/`offset_index_length`); 0 models an absent or zero
field, both falsy under the JavaScript truthiness test
`columnChunk.column_index_offset && columnChunk.column_index_length`. -/
structure ColumnChunkIndexLoc where
  column_index_offset : Nat
  column_index_length : Nat
  offset_index_offset : Nat
  offset_index_length : Nat
deriving DecidableEq, Repr

/-- The legacy per-chunk body of `parsePageIndexes` (lines 291-323 of
`parquetParser.js`).  There the Thrift struct read mutates a freshly
assigned index object — `colIndex.columnIndex = new ColumnIndex()` runs
before `colIndex.columnIndex[read](reader)` — so the decoders return
`Except`: `.ok v` is a completed decode with final object state `v`,
`.error p` a read that threw mid-struct leaving the object in the
partially-populated state `p`.  The `catch` only warns, so on failure
the slot keeps the already-assigned partial object; it is not reset to
null. -/
def parsePageIndexesSlot {CI OI : Type} (readCI : List Nat → Except CI CI)
    (readOI : List Nat → Except OI OI) (bytes : List Nat)
    (columnChunk : ColumnChunkIndexLoc) : PageIndexSlot CI OI :=
  let colIndex : PageIndexSlot CI OI := ⟨none, none⟩
  let colIndex :=
    if columnChunk.column_index_offset ≠ 0 ∧ columnChunk.column_index_length ≠ 0 then
      let offset := columnChunk.column_index_offset
      let length := columnChunk.column_index_length
      let indexBytes := (bytes.drop offset).take length
      match readCI indexBytes with
      | .ok v => { colIndex with columnIndex := some v }
      | .error p => { colIndex with columnIndex := some p }
    else colIndex
  let colIndex :=
    if columnChunk.offset_index_offset ≠ 0 ∧ columnChunk.offset_index_length ≠ 0 then
      let offset := columnChunk.offset_index_offset
      let length := columnChunk.offset_index_length
      let indexBytes := (bytes.drop offset).take length
      match readOI indexBytes with
      | .ok v => { colIndex with offsetIndex := some v }
      | .error p => { colIndex with offsetIndex := some p }
    else colIndex
  colIndex

/-- `parsePageIndexes(bytes, fileMetaData)` (the legacy buffer-based
index decoder, lines 284-330): a plain double loop over row groups and
columns pushing one slot per chunk.  The `fileMetaData` traversal is
abstracted to the per-chunk index-location fields. -/
def parsePageIndexes {CI OI : Type} (readCI : List Nat → Except CI CI)
    (readOI : List Nat → Except OI OI) (bytes : List Nat)
    (chunks : List (List ColumnChunkIndexLoc)) : List (List (PageIndexSlot CI OI)) :=
  chunks.map fun rowGroup => rowGroup.map (parsePageIndexesSlot readCI readOI bytes)

/- The Thrift type constants of `thrift.js` (`Thrift.Type`), kept as their
raw integer codes. -/
namespace ThriftType

def STOP : Nat := 0
def BOOL_TRUE : Nat := 1
def BOOL_FALSE : Nat := 2
def BYTE : Nat := 3
def I16 : Nat := 4
def I32 : Nat := 5
def I64 : Nat := 6
def DOUBLE : Nat := 7
def STRING : Nat := 8
def LIST : Nat := 9
def SET : Nat := 10
def MAP : Nat := 11
def STRUCT : Nat := 12
def BOOL : Nat := 2

end ThriftType

/- The compact-protocol type tags (`COMPACT_TYPES` in `thrift.js`). -/
namespace CompactTypes

def STOP : Nat := 0
def BOOL_TRUE : Nat := 1
def BOOL_FALSE : Nat := 2
def BYTE : Nat := 3
def I16 : Nat := 4
def I32 : Nat := 5
def I64 : Nat := 6
def DOUBLE : Nat := 7
def BINARY : Nat := 8
def LIST : Nat := 9
def SET : Nat := 10
def MAP : Nat := 11
def STRUCT : Nat := 12

end CompactTypes

/-- `compactTypeToThriftType` from `thrift.js`: unknown tags pass through. -/
def compactTypeToThriftType (compactType : Nat) : Nat :=
  if compactType = CompactTypes.STOP then ThriftType.STOP
  else if compactType = CompactTypes.BOOL_TRUE then ThriftType.BOOL
  else if compactType = CompactTypes.BOOL_FALSE then ThriftType.BOOL
  else if compactType = CompactTypes.BYTE then ThriftType.BYTE
  else if compactType = CompactTypes.I16 then ThriftType.I16
  else if compactType = CompactTypes.I32 then ThriftType.I32
  else if compactType = CompactTypes.I64 then ThriftType.I64
  else if compactType = CompactTypes.DOUBLE then ThriftType.DOUBLE
  else if compactType = CompactTypes.BINARY then ThriftType.STRING
  else if compactType = CompactTypes.LIST then ThriftType.LIST
  else if compactType = CompactTypes.SET then ThriftType.SET
  else if compactType = CompactTypes.MAP then ThriftType.MAP
  else if compactType = CompactTypes.STRUCT then ThriftType.STRUCT
  else compactType

/-- The state of `TCompactProtocolReader`: buffer, cursor, the stack of
last field ids (top of stack at the head; the constructor starts it as
`[0]`), and the pending inline boolean. -/
structure TCompactProtocolReader where
  buffer : List Nat
  offset : Nat
  lastFieldId : List Int
  boolValue : Option Bool
deriving DecidableEq, Repr

/-- `new TCompactProtocolReader(buffer)`. -/
def TCompactProtocolReader.mk0 (buffer : List Nat) : TCompactProtocolReader :=
  ⟨buffer, 0, [0], none⟩

namespace TCompactProtocolReader

/-- `readByte`: bounds check then `buffer[offset++]`. -/
def readByte (r : TCompactProtocolReader) : Except String (Nat × TCompactProtocolReader) :=
  if r.offset < r.buffer.length then
    .ok (byteAt r.buffer r.offset, { r with offset := r.offset + 1 })
  else .error "Buffer underflow"

/-- The varint loop of `readVarint`, made structural on a fuel argument
that bounds the number of iterations (each iteration consumes one byte,
so `buffer.length - offset` iterations suffice; exhausted fuel can only
be reached at an out-of-range offset, reported as the same underflow
error the JavaScript loop throws there). -/
def readVarintAux (buf : List Nat) : Nat → Nat → Nat → Nat → Except String (Nat × Nat)
  | _, _, _, 0 => .error "Buffer underflow reading varint"
  | offset, shift, acc, fuel + 1 =>
    if offset < buf.length then
      let byte := byteAt buf offset
      let acc := acc ||| ((byte &&& 0x7f) <<< shift)
      if byte &&& 0x80 ≠ 0 then readVarintAux buf (offset + 1) (shift + 7) acc fuel
      else .ok (acc, offset + 1)
    else .error "Buffer underflow reading varint"

/-- `readVarint`: unsigned LEB128 varint accumulated into a `BigInt`
(here an unbounded `Nat`). -/
def readVarint (r : TCompactProtocolReader) : Except String (Nat × TCompactProtocolReader) :=
  match readVarintAux r.buffer r.offset 0 0 (r.buffer.length - r.offset) with
  | .error e => .error e
  | .ok (n, offset) => .ok (n, { r with offset := offset })

/-- The zig-zag mapping `(n >> 1n) ^ (-(n & 1n))` applied by `readZigZag`
to the decoded varint. -/
def zigzagDecode (n : Nat) : Int :=
  Int.xor ((n >>> 1 : Nat) : Int) (-((n &&& 1 : Nat) : Int))

/-- `readZigZag`: read an unsigned varint, then un-zig-zag it. -/
def readZigZag (r : TCompactProtocolReader) : Except String (Int × TCompactProtocolReader) :=
  match r.readVarint with
  | .error e => .error e
  | .ok (n, r) => .ok (zigzagDecode n, r)

/-- `readI16` (the `Number(val)` conversion is the identity on the
mathematical value). -/
def readI16 (r : TCompactProtocolReader) : Except String (Int × TCompactProtocolReader) :=
  r.readZigZag

/-- `readI32`. -/
def readI32 (r : TCompactProtocolReader) : Except String (Int × TCompactProtocolReader) :=
  r.readZigZag

/-- `readI64` (the JavaScript function returns the same mathematical value
either as a `number` or as a `BigInt`). -/
def readI64 (r : TCompactProtocolReader) : Except String (Int × TCompactProtocolReader) :=
  r.readZigZag

/-- `readBinary`: varint length, dead negative-length check (the varint
accumulator is a nonnegative `BigInt`, so `Number(length) < 0` never
holds), bounds check, then slice and advance. -/
def readBinary (r : TCompactProtocolReader) :
    Except String (List Nat × TCompactProtocolReader) :=
  match r.readVarint with
  | .error e => .error e
  | .ok (length, r) =>
    if (length : Int) < 0 then .error "Negative binary length"
    else if r.offset + length > r.buffer.length then .error "Buffer underflow reading binary"
    else .ok ((r.buffer.drop r.offset).take length, { r with offset := r.offset + length })

/-- `readBool`: consume the pending inline boolean if present, else read
one byte and compare it with 1. -/
def readBool (r : TCompactProtocolReader) : Except String (Bool × TCompactProtocolReader) :=
  match r.boolValue with
  | some value => .ok (value, { r with boolValue := none })
  | none =>
    match r.readByte with
    | .error e => .error e
    | .ok (byte, r) => .ok (byte == 1, r)

/-- `readStructBegin`: push a fresh last-field-id 0. -/
def readStructBegin (r : TCompactProtocolReader) : TCompactProtocolReader :=
  { r with lastFieldId := 0 :: r.lastFieldId }

/-- `readStructEnd`: pop the last-field-id stack. -/
def readStructEnd (r : TCompactProtocolReader) : TCompactProtocolReader :=
  { r with lastFieldId := r.lastFieldId.tail }

/-- Overwrite the top of the last-field-id stack
(`this.lastFieldId[this.lastFieldId.length - 1] = fieldId`; the reader
always keeps at least one entry). -/
def setTop (s : List Int) (v : Int) : List Int :=
  match s with
  | [] => []
  | _ :: t => v :: t

/-- The pending-boolean update of `readFieldBegin` for boolean-true /
boolean-false compact tags. -/
def setBoolPending (compactType : Nat) (r : TCompactProtocolReader) : TCompactProtocolReader :=
  if compactType = CompactTypes.BOOL_TRUE then { r with boolValue := some true }
  else if compactType = CompactTypes.BOOL_FALSE then { r with boolValue := some false }
  else r

/-- The `{ ftype, fid }` record returned by `readFieldBegin`. -/
structure FieldHeader where
  ftype : Nat
  fid : Int
deriving DecidableEq, Repr

/-- `readFieldBegin`: one header byte; zero means Stop; otherwise the high
nibble is a field-id delta (0 selecting the long, zig-zag-varint form)
and the low nibble the compact type tag; boolean tags park the value in
the pending-boolean slot. -/
def readFieldBegin (r : TCompactProtocolReader) :
    Except String (FieldHeader × TCompactProtocolReader) :=
  match r.readByte with
  | .error e => .error e
  | .ok (byte, r) =>
    if byte = 0 then .ok (⟨ThriftType.STOP, 0⟩, r)
    else
      let delta := (byte >>> 4) &&& 0x0f
      let compactType := byte &&& 0x0f
      let next : Except String (Int × TCompactProtocolReader) :=
        if delta = 0 then r.readZigZag
        else .ok (r.lastFieldId.headD 0 + (delta : Int), r)
      match next with
      | .error e => .error e
      | .ok (fieldId, r) =>
        let r := { r with lastFieldId := setTop r.lastFieldId fieldId }
        let r := setBoolPending compactType r
        .ok (⟨compactTypeToThriftType compactType, fieldId⟩, r)

end TCompactProtocolReader

/-- One decimal digit as a character (the digit map used by the
JavaScript `toString()` rendering of numbers). -/
def digitChar : Nat → Char
  | 0 => '0'
  | 1 => '1'
  | 2 => '2'
  | 3 => '3'
  | 4 => '4'
  | 5 => '5'
  | 6 => '6'
  | 7 => '7'
  | 8 => '8'
  | 9 => '9'
  | _ + 10 => '*'

/-- Decimal digit list of a natural number, most significant first,
recursing on a fuel bound (any fuel above the digit count gives the
same result; see `toDigitsAux_fuel`). -/
def toDigitsAux : Nat → Nat → List Char
  | 0, _ => []
  | fuel + 1, n =>
    if n < 10 then [digitChar n] else toDigitsAux fuel (n / 10) ++ [digitChar (n % 10)]

/-- The decimal digit characters of a natural number (`n.toString()`),
`0` rendering as `"0"`. -/
def natToDigitList (n : Nat) : List Char := toDigitsAux (n + 1) n

/-- `n.toString()` for a natural number. -/
def natToString (n : Nat) : String := String.mk (natToDigitList n)

/-- `v.toString()` for a JavaScript integer (`number` or `BigInt`). -/
def intToString (v : Int) : String :=
  if v < 0 then "-" ++ natToString v.natAbs else natToString v.toNat

/-- `str.padStart(n, c)`. -/
def padStartStr (s : String) (n : Nat) (c : Char) : String :=
  String.mk (List.leftpad n c s.data)

/-- `formatDecimal(intValue, scale)` from `statsFormatter.js`: scale 0
renders the integer as-is; otherwise the absolute value's digit string
is left-padded with zeros to at least `scale + 1` digits and split into
an integer part and a `scale`-digit fractional part.  (The surrounding
`try`/`catch` cannot fire: every operation here is total.) -/
def formatDecimal (intValue : Int) (scale : Nat) : String :=
  let str := intToString intValue
  if scale = 0 then str
  else
    let isNegative := str.data.head? == some '-'
    let absStr := if isNegative then String.mk str.data.tail else str
    let padded := padStartStr absStr (scale + 1) '0'
    let intPart := String.mk (padded.data.take (padded.data.length - scale))
    let intPart := if intPart = "" then "0" else intPart
    let decPart := String.mk (padded.data.drop (padded.data.length - scale))
    (if isNegative then "-" else "") ++ intPart ++ "." ++ decPart

/-- One hexadecimal digit as a character (`toString(16)` digit map). -/
def hexDigitChar (n : Nat) : Char :=
  if n < 10 then digitChar n
  else if n = 10 then 'a'
  else if n = 11 then 'b'
  else if n = 12 then 'c'
  else if n = 13 then 'd'
  else if n = 14 then 'e'
  else if n = 15 then 'f'
  else '*'

/-- Hexadecimal digit list, most significant first, on a fuel bound. -/
def toHexAux : Nat → Nat → List Char
  | 0, _ => []
  | fuel + 1, n =>
    if n < 16 then [hexDigitChar n] else toHexAux fuel (n / 16) ++ [hexDigitChar (n % 16)]

/-- `b.toString(16).padStart(2, '0')`: the two-digit hex rendering used
for every hex dump in `statsFormatter.js`. -/
def byteToHex (b : Nat) : String :=
  padStartStr (String.mk (toHexAux (b + 1) b)) 2 '0'

/-- The bounded hex rendering used both by the catch-all fallback of
`formatStatValue` (lines 473-479) and by the binary-data fallback of the
byte-array branch (lines 465-468): first 16 bytes space-separated, with
an ellipsis when more bytes exist. -/
def hexTruncated (value : List Nat) : String :=
  String.intercalate " " ((value.take 16).map byteToHex) ++
    (if value.length > 16 then "..." else "")

/-- Physical type names.  Modelled from the spec: the integer-to-name
table lives in the generated `parquet_types.js` (`Type`), which is not
part of the core sources; the codes are the standard physical-type
enumeration the spec's StatisticsDecoder dispatches on. -/
def getTypeName (t : Nat) : String :=
  if t = 0 then "BOOLEAN"
  else if t = 1 then "INT32"
  else if t = 2 then "INT64"
  else if t = 3 then "INT96"
  else if t = 4 then "FLOAT"
  else if t = 5 then "DOUBLE"
  else if t = 6 then "BYTE_ARRAY"
  else if t = 7 then "FIXED_LEN_BYTE_ARRAY"
  else "Unknown(" ++ natToString t ++ ")"

/-- `DataView.getInt32(off, true)`: little-endian signed 32-bit read. -/
def readInt32LE (b : List Nat) (off : Nat) : Int :=
  let u := readUint32LE b off
  if 2 ^ 31 ≤ u then (u : Int) - 2 ^ 32 else (u : Int)

/-- `DataView.getBigInt64(off, true)`: little-endian signed 64-bit read. -/
def readInt64LE (b : List Nat) (off : Nat) : Int :=
  let u : Nat := readUint32LE b off + readUint32LE b (off + 4) * 2 ^ 32
  if 2 ^ 63 ≤ u then (u : Int) - 2 ^ 64 else (u : Int)

/-- Time-unit annotation carried by TIME/TIMESTAMP logical types. -/
inductive TimeUnit where
  | MILLIS
  | MICROS
  | NANOS
deriving DecidableEq, Repr

/-- The result of `getLogicalTypeInfo`, with the `details` object
collapsed to the fields `formatStatValue` reads: the logical type name,
the decimal scale (`details?.scale || 0`) and the time unit
(`details?.unit`). -/
structure LogicalInfo where
  type : Option String
  scale : Nat
  unit : Option TimeUnit
deriving DecidableEq, Repr

/-- The host (browser) facilities `formatStatValue` calls out to.  These
are environment capabilities, not repository code: IEEE-754 decoding and
`toExponential`/`toPrecision` for FLOAT/DOUBLE, `Date`/`toISOString` for
dates and timestamps, `TextDecoder('utf-8', { fatal: true })`
(`none` models its thrown decode error, which the inner `try` catches),
and `toLocaleString` (`Except` so a thrown host error exercises the
outer `catch`).  `dateRender`/`timeRender`/`timestampRender` model
`formatDate`/`formatTime`/`formatTimestamp`, which contain their own
`try`/`catch` and therefore always return a string. -/
structure FormatterHosts where
  localeString : Int → Except Unit String
  floatRender : List Nat → Except Unit String
  doubleRender : List Nat → Except Unit String
  utf8Decode : List Nat → Option String
  isoOfMillis : Int → Option String
  dateRender : Int → String
  timeRender : Int → Option TimeUnit → String
  timestampRender : Int → Option TimeUnit → String

/-- `parseINT96Timestamp(bytes)`: exactly 12 bytes, 8 bytes little-endian
nanoseconds-within-day then a 4-byte little-endian signed Julian day;
`none` models both a wrong length and an invalid resulting `Date`. -/
def parseINT96Timestamp (isoOfMillis : Int → Option String) (bytes : List Nat) :
    Option String :=
  if bytes.length ≠ 12 then none
  else
    let nanoLow := readUint32LE bytes 0
    let nanoHigh := readUint32LE bytes 4
    let nanoseconds := nanoLow + nanoHigh * 2 ^ 32
    let julianDay := readInt32LE bytes 8
    let unixDays := julianDay - 2440588
    let unixMs := unixDays * 86400000 + ((nanoseconds / 1000000 : Nat) : Int)
    isoOfMillis unixMs

/-- `hex.slice(a, b)` over the character data. -/
def strSlice (s : String) (a b : Nat) : String :=
  String.mk ((s.data.drop a).take (b - a))

/-- `formatUUID(bytes)`: 16 bytes render as the 8-4-4-4-12 hyphenated
grouping, any other length as plain concatenated hex.  (Its
`try`/`catch` is unreachable: all operations are total.) -/
def formatUUID (bytes : List Nat) : String :=
  let hex := String.join (bytes.map byteToHex)
  if bytes.length ≠ 16 then hex
  else
    strSlice hex 0 8 ++ "-" ++ strSlice hex 8 12 ++ "-" ++ strSlice hex 12 16 ++ "-" ++
      strSlice hex 16 20 ++ "-" ++ String.mk (hex.data.drop 20)

/-- The printability regex `/^[\x20-\x7E\t\n\r -￿]*$/`.  The
JavaScript regex ranges over UTF-16 units, so astral code points (whose
surrogates lie in U+00A0..U+FFFF) pass; accordingly every code point of
at least U+00A0 is accepted here. -/
def isPrintable (text : String) : Bool :=
  text.data.all fun c =>
    (0x20 ≤ c.toNat && c.toNat ≤ 0x7E) || c == '\t' || c == '\n' || c == '\r' ||
      0xA0 ≤ c.toNat

/-- The quoting and 50-character truncation of the string branch. -/
def quoteText (text : String) : String :=
  if text.length > 50 then "\"" ++ String.mk (text.data.take 47) ++ "...\""
  else "\"" ++ text ++ "\""

/-- The big-endian two's-complement decimal decode of the byte-array
branch (lines 423-435). -/
def decodeBEDecimal (value : List Nat) : Int :=
  let isNegative := (byteAt value 0 &&& 0x80) != 0
  let mag := value.foldl
    (fun acc b => (acc <<< 8) ||| (if isNegative then b ^^^ 0xff else b)) 0
  if isNegative then -((mag : Int) + 1) else (mag : Int)

/-- The `try` block of `formatStatValue` (lines 318-471): dispatch on the
physical type name, inside each branch on the resolved logical type.
An `Except.error` is a thrown exception reaching the outer `catch`. -/
def formatStatValueBody (H : FormatterHosts) (value : List Nat) (t : Nat)
    (li : LogicalInfo) : Except Unit String :=
  let physicalType := getTypeName t
  if physicalType = "BOOLEAN" then
    .ok (if byteAt value 0 ≠ 0 then "true" else "false")
  else if physicalType = "INT32" then
    if value.length < 4 then .ok "N/A"
    else
      let intValue := readInt32LE value 0
      if li.type = some "DATE" then .ok (H.dateRender intValue)
      else if li.type = some "TIME" then .ok (H.timeRender intValue li.unit)
      else if li.type = some "DECIMAL" then .ok (formatDecimal intValue li.scale)
      else H.localeString intValue
  else if physicalType = "INT64" then
    if value.length < 8 then .ok "N/A"
    else
      let bigIntValue := readInt64LE value 0
      if li.type = some "TIMESTAMP" then .ok (H.timestampRender bigIntValue li.unit)
      else if li.type = some "TIME" then .ok (H.timeRender bigIntValue li.unit)
      else if li.type = some "DECIMAL" then .ok (formatDecimal bigIntValue li.scale)
      else H.localeString bigIntValue
  else if physicalType = "INT96" then
    match parseINT96Timestamp H.isoOfMillis value with
    | some s => .ok s
    | none => .ok (String.intercalate " " ((value.take 12).map byteToHex))
  else if physicalType = "FLOAT" then
    if value.length < 4 then .ok "N/A" else H.floatRender value
  else if physicalType = "DOUBLE" then
    if value.length < 8 then .ok "N/A" else H.doubleRender value
  else if physicalType = "BYTE_ARRAY" ∨ physicalType = "FIXED_LEN_BYTE_ARRAY" then
    if li.type = some "UUID" then .ok (formatUUID value)
    else if li.type = some "DECIMAL" then
      .ok (formatDecimal (decodeBEDecimal value) li.scale)
    else
      let tryString :=
        if li.type = some "STRING" ∨ li.type = some "JSON" ∨ li.type = some "ENUM" ∨
            li.type = none then
          match H.utf8Decode value with
          | some text => if isPrintable text then some (quoteText text) else none
          | none => none
        else none
      match tryString with
      | some s => .ok s
      | none => .ok (hexTruncated value)
  else .ok "N/A"

/-- `formatStatValue(value, columnMeta, schemaElement)`: the null guards,
the `try` body, and the catch-all hex fallback.  `columnMeta` enters only
through `columnMeta.type` and `schemaElement` only through
`getLogicalTypeInfo`, so they are modelled by the type code and the
resolved `LogicalInfo`. -/
def formatStatValue (H : FormatterHosts) (value? : Option (List Nat))
    (columnMetaType? : Option Nat) (li : LogicalInfo) : String :=
  match value?, columnMetaType? with
  | some value, some t =>
    match formatStatValueBody H value t li with
    | .ok s => s
    | .error _ => hexTruncated value
  | _, _ => "N/A"

/-! ## Theorems -/

lemma byteAt_readFileSlice (l : List Nat) (s e i : Nat) (h : i < e - s) :
    byteAt (readFileSlice l s e) i = byteAt l (s + i) := by
  unfold byteAt readFileSlice
  rw [List.getElem?_take, if_pos h, List.getElem?_drop]

lemma streaming_footer_magic (bytes : List Nat) (h : 12 ≤ bytes.length) :
    ((readFileSlice bytes (bytes.length - 8) bytes.length).drop 4).take 4 =
      (bytes.drop (bytes.length - 4)).take 4 := by
  unfold readFileSlice
  have h8 : bytes.length - (bytes.length - 8) = 8 := by omega
  rw [h8, List.drop_take, List.drop_drop]
  have h4 : bytes.length - 8 + 4 = bytes.length - 4 := by omega
  rw [h4]
  simp [List.take_take]

lemma streaming_footer_length (bytes : List Nat) (h : 12 ≤ bytes.length) :
    readUint32LE (readFileSlice bytes (bytes.length - 8) bytes.length) 0 =
      readUint32LE bytes (bytes.length - 8) := by
  unfold readUint32LE
  rw [byteAt_readFileSlice _ _ _ _ (by omega), byteAt_readFileSlice _ _ _ _ (by omega),
    byteAt_readFileSlice _ _ _ _ (by omega), byteAt_readFileSlice _ _ _ _ (by omega)]
  norm_num

/-- C10: any input shorter than 12 bytes makes both parse entry points fail
with the dedicated file-too-small error (distinct from every magic/footer
validation error), and 12 bytes — leading magic, empty footer, zero length
field, trailing magic — is accepted. -/
theorem C10_min_file_size (bytes : List Nat) (h : bytes.length < 12) :
    parseParquetFile bytes = .error .fileTooSmall ∧
    parseParquetFileStreaming bytes = .error .fileTooSmall ∧
    parseParquetFile (PARQUET_MAGIC ++ [0, 0, 0, 0] ++ PARQUET_MAGIC) =
      .ok ⟨12, 0, 4, []⟩ ∧
    parseParquetFileStreaming (PARQUET_MAGIC ++ [0, 0, 0, 0] ++ PARQUET_MAGIC) =
      .ok ⟨12, 0, 4, []⟩ := by
  refine ⟨?_, ?_, by rfl, by rfl⟩
  · unfold parseParquetFile
    simp [h]
  · unfold parseParquetFileStreaming
    simp [h]

/-- C10 witness at a concrete 11-byte input. -/
theorem C10_min_file_size_witness :
    parseParquetFile [0x50, 0x41, 0x52, 0x31, 0, 0, 0, 0x50, 0x41, 0x52, 0x31] =
      .error .fileTooSmall :=
  (C10_min_file_size [0x50, 0x41, 0x52, 0x31, 0, 0, 0, 0x50, 0x41, 0x52, 0x31]
    (by decide)).1

/-- C1: for inputs of at least 12 bytes, if the leading and trailing 4
bytes both equal the magic marker and the little-endian length `L` at
`[F-8, F-4)` satisfies `L ≤ F-8`, both entry points hand the Thrift
decoder exactly the byte range `[F-8-L, F-8)`; otherwise both fail with
one of the invalid-format errors (never the file-too-small error) and
produce no result. -/
theorem C1_footer_location (bytes : List Nat) (h12 : 12 ≤ bytes.length) :
    (bytesEqual (bytes.take 4) PARQUET_MAGIC = true →
     bytesEqual ((bytes.drop (bytes.length - 4)).take 4) PARQUET_MAGIC = true →
     readUint32LE bytes (bytes.length - 8) ≤ bytes.length - 8 →
     parseParquetFile bytes =
       .ok ⟨bytes.length, readUint32LE bytes (bytes.length - 8),
            bytes.length - 8 - readUint32LE bytes (bytes.length - 8),
            (bytes.drop (bytes.length - 8 - readUint32LE bytes (bytes.length - 8))).take
              (readUint32LE bytes (bytes.length - 8))⟩ ∧
     parseParquetFileStreaming bytes =
       .ok ⟨bytes.length, readUint32LE bytes (bytes.length - 8),
            bytes.length - 8 - readUint32LE bytes (bytes.length - 8),
            (bytes.drop (bytes.length - 8 - readUint32LE bytes (bytes.length - 8))).take
              (readUint32LE bytes (bytes.length - 8))⟩) ∧
    (¬(bytesEqual (bytes.take 4) PARQUET_MAGIC = true ∧
       bytesEqual ((bytes.drop (bytes.length - 4)).take 4) PARQUET_MAGIC = true ∧
       readUint32LE bytes (bytes.length - 8) ≤ bytes.length - 8) →
     ∃ e, e ≠ ParseError.fileTooSmall ∧ parseParquetFile bytes = .error e ∧
       parseParquetFileStreaming bytes = .error e) := by
  have hlt : ¬ bytes.length < 12 := by omega
  have hhead : readFileSlice bytes 0 4 = bytes.take 4 := by
    simp [readFileSlice]
  constructor
  · intro hH hF hL
    have hgt : ¬ readUint32LE bytes (bytes.length - 8) > bytes.length - 8 := by omega
    constructor
    · unfold parseParquetFile
      simp [hlt, hH, hF, hgt]
    · simp only [parseParquetFileStreaming]
      rw [hhead, streaming_footer_magic bytes h12, streaming_footer_length bytes h12]
      simp [hlt, hH, hF, hgt, readFileSlice]
  · intro hbad
    by_cases hH : bytesEqual (bytes.take 4) PARQUET_MAGIC = true
    · by_cases hF : bytesEqual ((bytes.drop (bytes.length - 4)).take 4) PARQUET_MAGIC = true
      · have hL : ¬ readUint32LE bytes (bytes.length - 8) ≤ bytes.length - 8 := by
          intro hL; exact hbad ⟨hH, hF, hL⟩
        refine ⟨.invalidFooterLength, by decide, ?_, ?_⟩
        · unfold parseParquetFile
          simp [hlt, hH, hF]
          omega
        · simp only [parseParquetFileStreaming]
          rw [hhead, streaming_footer_magic bytes h12, streaming_footer_length bytes h12]
          simp [hlt, hH, hF]
          omega
      · refine ⟨.invalidFooterMagic, by decide, ?_, ?_⟩
        · unfold parseParquetFile
          simp [hlt, hH, hF]
        · simp only [parseParquetFileStreaming]
          rw [hhead, streaming_footer_magic bytes h12]
          simp [hlt, hH, hF]
    · refine ⟨.invalidHeaderMagic, by decide, ?_, ?_⟩
      · unfold parseParquetFile
        simp [hlt, hH]
      · simp only [parseParquetFileStreaming]
        rw [hhead]
        simp [hlt, hH]

/-- C1 witness: a valid 13-byte file with a 1-byte footer, and an invalid
input rejected with a non-size error. -/
theorem C1_footer_location_witness :
    parseParquetFile [0x50, 0x41, 0x52, 0x31, 0xAB, 1, 0, 0, 0, 0x50, 0x41, 0x52, 0x31] =
      .ok ⟨13, 1, 4, [0xAB]⟩ :=
  ((C1_footer_location
      [0x50, 0x41, 0x52, 0x31, 0xAB, 1, 0, 0, 0, 0x50, 0x41, 0x52, 0x31]
      (by decide)).1 (by decide) (by decide) (by decide)).1

lemma int_xor_ofNat (m n : Nat) :
    Int.xor (Int.ofNat m) (Int.ofNat n) = Int.ofNat (m ^^^ n) := rfl

lemma int_xor_negSucc (m n : Nat) :
    Int.xor (Int.ofNat m) (Int.negSucc n) = Int.negSucc (m ^^^ n) := rfl

lemma zigzagDecode_even (k : Nat) : TCompactProtocolReader.zigzagDecode (2 * k) = (k : Int) := by
  have h1 : ((2 * k) >>> 1 : Nat) = k := by rw [Nat.shiftRight_eq_div_pow]; omega
  have h2 : ((2 * k) &&& 1 : Nat) = 0 := by rw [Nat.and_one_is_mod]; omega
  unfold TCompactProtocolReader.zigzagDecode
  rw [h1, h2]
  show Int.xor (Int.ofNat k) (-Int.ofNat 0) = Int.ofNat k
  rw [show (-Int.ofNat 0) = Int.ofNat 0 from rfl, int_xor_ofNat, Nat.xor_zero]

lemma zigzagDecode_odd (k : Nat) :
    TCompactProtocolReader.zigzagDecode (2 * k + 1) = -((k : Int) + 1) := by
  have h1 : ((2 * k + 1) >>> 1 : Nat) = k := by rw [Nat.shiftRight_eq_div_pow]; omega
  have h2 : ((2 * k + 1) &&& 1 : Nat) = 1 := by rw [Nat.and_one_is_mod]; omega
  unfold TCompactProtocolReader.zigzagDecode
  rw [h1, h2]
  show Int.xor (Int.ofNat k) (-Int.ofNat 1) = -(Int.ofNat k + 1)
  rw [show (-Int.ofNat 1) = Int.negSucc 0 from rfl, int_xor_negSucc, Nat.xor_zero,
    Int.negSucc_eq]
  rfl

/-- C5: `readZigZag` applies `(n >> 1) ^ (-(n & 1))` to the decoded
unsigned varint, mapping `2k` to `k` and `2k+1` to `-(k+1)` (so raw
varints 0,1,2,3,4 give 0,-1,1,-2,2), and it is the decoder behind every
signed integer field: `readI16`, `readI32`, `readI64`, and the long-form
field id of `readFieldBegin`. -/
theorem C5_readZigZag (r : TCompactProtocolReader) :
    (∀ n r', r.readVarint = .ok (n, r') →
       r.readZigZag = .ok (TCompactProtocolReader.zigzagDecode n, r')) ∧
    (∀ k : Nat, TCompactProtocolReader.zigzagDecode (2 * k) = (k : Int) ∧
       TCompactProtocolReader.zigzagDecode (2 * k + 1) = -((k : Int) + 1)) ∧
    (TCompactProtocolReader.zigzagDecode 0 = 0 ∧
     TCompactProtocolReader.zigzagDecode 1 = -1 ∧
     TCompactProtocolReader.zigzagDecode 2 = 1 ∧
     TCompactProtocolReader.zigzagDecode 3 = -2 ∧
     TCompactProtocolReader.zigzagDecode 4 = 2) ∧
    (r.readI16 = r.readZigZag ∧ r.readI32 = r.readZigZag ∧ r.readI64 = r.readZigZag) ∧
    (∀ byte r1 v r2, r.readByte = .ok (byte, r1) → byte ≠ 0 →
       (byte >>> 4) &&& 0x0f = 0 → r1.readZigZag = .ok (v, r2) →
       r.readFieldBegin = .ok
         (⟨compactTypeToThriftType (byte &&& 0x0f), v⟩,
          TCompactProtocolReader.setBoolPending (byte &&& 0x0f)
            { r2 with lastFieldId := TCompactProtocolReader.setTop r2.lastFieldId v })) := by
  refine ⟨?_, fun k => ⟨zigzagDecode_even k, zigzagDecode_odd k⟩,
    ⟨by decide, by decide, by decide, by decide, by decide⟩, ⟨rfl, rfl, rfl⟩, ?_⟩
  · intro n r' h
    unfold TCompactProtocolReader.readZigZag
    rw [h]
  · intro byte r1 v r2 hbyte hne hdelta hzz
    unfold TCompactProtocolReader.readFieldBegin
    rw [hbyte]
    simp [hne, hdelta, hzz]

/-- C5 witness: the varint/zig-zag pipeline on the concrete buffer `[3]`
decodes to `-2`. -/
theorem C5_readZigZag_witness :
    (TCompactProtocolReader.mk0 [3]).readZigZag = .ok (-2, ⟨[3], 1, [0], none⟩) := by
  have h := (C5_readZigZag (TCompactProtocolReader.mk0 [3])).1 3 ⟨[3], 1, [0], none⟩ rfl
  rw [h]
  rfl

/-- C9: `readBinary` reads an unsigned varint length `L`, then returns
exactly the next `L` bytes and advances the cursor by `L`; with fewer
than `L` bytes left it fails with the buffer-underflow (truncation)
error; and a decoded length that is negative would be rejected — in fact
the varint accumulator is nonnegative, so that branch can never fire. -/
theorem C9_readBinary (r : TCompactProtocolReader) (L : Nat) (r1 : TCompactProtocolReader)
    (h : r.readVarint = .ok (L, r1)) :
    (r1.offset + L ≤ r1.buffer.length →
       r.readBinary = .ok ((r1.buffer.drop r1.offset).take L,
         { r1 with offset := r1.offset + L }) ∧
       ((r1.buffer.drop r1.offset).take L).length = L) ∧
    (r1.offset + L > r1.buffer.length →
       r.readBinary = .error "Buffer underflow reading binary") ∧
    ((L : Int) < 0 → r.readBinary = .error "Negative binary length") ∧
    ¬ ((L : Int) < 0) := by
  have hnonneg : ¬ ((L : Int) < 0) := by exact_mod_cast Int.not_lt.mpr (Int.ofNat_nonneg L)
  refine ⟨?_, ?_, fun hneg => absurd hneg hnonneg, hnonneg⟩
  · intro hle
    constructor
    · unfold TCompactProtocolReader.readBinary
      rw [h]
      simp [hnonneg, Nat.not_lt.mpr hle]
    · rw [List.length_take, List.length_drop]
      omega
  · intro hgt
    unfold TCompactProtocolReader.readBinary
    rw [h]
    simp [hnonneg]
    omega

/-- C9 witness: on the buffer `[2, 7, 9, 4]` the length varint decodes to
2 and the next two bytes are returned; on `[3, 7]` the read is
truncated. -/
theorem C9_readBinary_witness :
    (TCompactProtocolReader.mk0 [2, 7, 9, 4]).readBinary =
      .ok ([7, 9], ⟨[2, 7, 9, 4], 3, [0], none⟩) ∧
    (TCompactProtocolReader.mk0 [3, 7]).readBinary =
      .error "Buffer underflow reading binary" := by
  constructor
  · have h := ((C9_readBinary (TCompactProtocolReader.mk0 [2, 7, 9, 4]) 2
      ⟨[2, 7, 9, 4], 1, [0], none⟩ rfl).1 (by decide)).1
    rw [h]
    rfl
  · exact (C9_readBinary (TCompactProtocolReader.mk0 [3, 7]) 3
      ⟨[3, 7], 1, [0], none⟩ rfl).2.1 (by decide)

/-- C6: `readFieldBegin` reads one byte; zero yields Stop; otherwise the
low nibble is the compact type tag and the high nibble a field-id delta,
where delta 0 means the field id follows as a zig-zag varint and a
nonzero delta is added to the last field id at the current struct depth
(which is updated); boolean tags park the value so the next `readBool`
consumes no byte.  In particular header byte `0x15` after field id 3
yields field id 4 with the int32 tag. -/
theorem C6_readFieldBegin (r : TCompactProtocolReader) :
    (∀ r1, r.readByte = .ok (0, r1) → r.readFieldBegin = .ok (⟨ThriftType.STOP, 0⟩, r1)) ∧
    (∀ byte r1, r.readByte = .ok (byte, r1) → byte ≠ 0 → (byte >>> 4) &&& 0x0f ≠ 0 →
       r.readFieldBegin = .ok
         (⟨compactTypeToThriftType (byte &&& 0x0f),
           r1.lastFieldId.headD 0 + (((byte >>> 4) &&& 0x0f : Nat) : Int)⟩,
          TCompactProtocolReader.setBoolPending (byte &&& 0x0f)
            { r1 with lastFieldId := (TCompactProtocolReader.setTop r1.lastFieldId
                (r1.lastFieldId.headD 0 + (((byte >>> 4) &&& 0x0f : Nat) : Int))) })) ∧
    (∀ byte r1 v r2, r.readByte = .ok (byte, r1) → byte ≠ 0 → (byte >>> 4) &&& 0x0f = 0 →
       r1.readZigZag = .ok (v, r2) →
       r.readFieldBegin = .ok
         (⟨compactTypeToThriftType (byte &&& 0x0f), v⟩,
          TCompactProtocolReader.setBoolPending (byte &&& 0x0f)
            { r2 with lastFieldId := TCompactProtocolReader.setTop r2.lastFieldId v })) ∧
    (∀ b, r.boolValue = some b → r.readBool = .ok (b, { r with boolValue := none })) ∧
    TCompactProtocolReader.readFieldBegin ⟨[0x15], 0, [3], none⟩ =
      .ok (⟨ThriftType.I32, 4⟩, ⟨[0x15], 1, [4], none⟩) ∧
    TCompactProtocolReader.readFieldBegin ⟨[0x11], 0, [0], none⟩ =
      .ok (⟨ThriftType.BOOL, 1⟩, ⟨[0x11], 1, [1], some true⟩) ∧
    TCompactProtocolReader.readBool ⟨[0x11], 1, [1], some true⟩ =
      .ok (true, ⟨[0x11], 1, [1], none⟩) := by
  refine ⟨?_, ?_, ?_, ?_, by rfl, by rfl, by rfl⟩
  · intro r1 h
    unfold TCompactProtocolReader.readFieldBegin
    rw [h]
    simp
  · intro byte r1 hbyte hne hdelta
    unfold TCompactProtocolReader.readFieldBegin
    rw [hbyte]
    simp [hne, hdelta]
  · intro byte r1 v r2 hbyte hne hdelta hzz
    unfold TCompactProtocolReader.readFieldBegin
    rw [hbyte]
    simp [hne, hdelta, hzz]
  · intro b h
    unfold TCompactProtocolReader.readBool
    rw [h]

/-- C6 witness: the short-form characterization applied to the concrete
reader with buffer `[0x15]` and last field id 3. -/
theorem C6_readFieldBegin_witness :
    TCompactProtocolReader.readFieldBegin ⟨[0x15], 0, [3], none⟩ =
      .ok (⟨compactTypeToThriftType 5, 4⟩, ⟨[0x15], 1, [4], none⟩) := by
  have h := (C6_readFieldBegin ⟨[0x15], 0, [3], none⟩).2.1 0x15 ⟨[0x15], 1, [3], none⟩
    rfl (by decide) (by decide)
  rw [h]
  rfl

lemma foldl_addRequest_inv (gap : Nat) (l : List ReadRequest) :
    ∀ (bs : List Batch) (cur : Option Batch),
      l.Pairwise reqLE →
      (∀ b ∈ bs, ∀ q ∈ b.requests, b.start ≤ q.offset ∧ q.offset + q.length ≤ b.stop) →
      (∀ cb, cur = some cb →
        ((∀ q ∈ cb.requests, cb.start ≤ q.offset ∧ q.offset + q.length ≤ cb.stop) ∧
         ∀ q ∈ l, cb.start ≤ q.offset)) →
      (∀ b ∈ (l.foldl (addRequest gap) (bs, cur)).1, ∀ q ∈ b.requests,
         b.start ≤ q.offset ∧ q.offset + q.length ≤ b.stop) ∧
      (∀ cb, (l.foldl (addRequest gap) (bs, cur)).2 = some cb →
         ∀ q ∈ cb.requests, cb.start ≤ q.offset ∧ q.offset + q.length ≤ cb.stop) := by
  induction l with
  | nil =>
    intro bs cur _ hbs hcur
    exact ⟨hbs, fun cb h => (hcur cb h).1⟩
  | cons r l' ih =>
    intro bs cur hs hbs hcur
    obtain ⟨hr, hs'⟩ := List.pairwise_cons.mp hs
    rw [List.foldl_cons]
    cases cur with
    | none =>
      apply ih bs (some ⟨r.offset, r.offset + r.length, [r]⟩) hs' hbs
      intro cb hcb
      cases hcb
      refine ⟨?_, fun q hq => Nat.le_of_eq rfl |>.trans (hr q hq)⟩
      intro q hq
      simp only [List.mem_singleton] at hq
      subst hq
      exact ⟨Nat.le_refl _, Nat.le_refl _⟩
    | some cb =>
      by_cases hjoin : r.offset ≤ cb.stop + gap
      · have hstep : addRequest gap (bs, some cb) r =
            (bs, some ⟨cb.start, max cb.stop (r.offset + r.length), cb.requests ++ [r]⟩) := by
          simp [addRequest, hjoin]
        rw [hstep]
        apply ih _ _ hs' hbs
        intro cb' hcb'
        cases hcb'
        constructor
        · intro q hq
          rcases List.mem_append.mp hq with hq | hq
          · have h1 := (hcur cb rfl).1 q hq
            exact ⟨h1.1, h1.2.trans (Nat.le_max_left _ _)⟩
          · simp only [List.mem_singleton] at hq
            subst hq
            exact ⟨(hcur cb rfl).2 q (List.mem_cons_self ..),
              Nat.le_max_right _ _⟩
        · intro q hq
          exact (hcur cb rfl).2 q (List.mem_cons_of_mem _ hq)
      · have hstep : addRequest gap (bs, some cb) r =
            (bs ++ [cb], some ⟨r.offset, r.offset + r.length, [r]⟩) := by
          simp [addRequest, hjoin]
        rw [hstep]
        apply ih
        · exact hs'
        · intro b hb
          rcases List.mem_append.mp hb with hb | hb
          · exact hbs b hb
          · simp only [List.mem_singleton] at hb
            subst hb
            exact (hcur b rfl).1
        · intro cb' hcb'
          cases hcb'
          refine ⟨?_, fun q hq => hr q hq⟩
          intro q hq
          simp only [List.mem_singleton] at hq
          subst hq
          exact ⟨Nat.le_refl _, Nat.le_refl _⟩

lemma buildBatches_inv (gap : Nat) (l : List ReadRequest) (hsort : l.Pairwise reqLE) :
    ∀ b ∈ buildBatches gap l, ∀ q ∈ b.requests,
      b.start ≤ q.offset ∧ q.offset + q.length ≤ b.stop := by
  have h := foldl_addRequest_inv gap l [] none hsort (by simp) (by simp)
  unfold buildBatches
  rcases hfold : l.foldl (addRequest gap) ([], none) with ⟨bs, cur⟩
  rw [hfold] at h
  cases cur with
  | none => exact h.1
  | some cb =>
    intro b hb
    rcases List.mem_append.mp hb with hb | hb
    · exact h.1 b hb
    · simp only [List.mem_singleton] at hb
      subst hb
      exact h.2 b rfl

lemma foldl_addRequest_flatten (gap : Nat) (l : List ReadRequest) :
    ∀ (bs : List Batch) (cur : Option Batch),
      ((l.foldl (addRequest gap) (bs, cur)).1.flatMap Batch.requests ++
        (match (l.foldl (addRequest gap) (bs, cur)).2 with
         | none => []
         | some cb => cb.requests)) =
      (bs.flatMap Batch.requests ++ (match cur with
         | none => []
         | some cb => cb.requests)) ++ l := by
  induction l with
  | nil => intro bs cur; simp
  | cons r l' ih =>
    intro bs cur
    rw [List.foldl_cons]
    cases cur with
    | none =>
      rw [show addRequest gap (bs, none) r =
        (bs, some ⟨r.offset, r.offset + r.length, [r]⟩) from rfl, ih]
      simp
    | some cb =>
      by_cases hjoin : r.offset ≤ cb.stop + gap
      · rw [show addRequest gap (bs, some cb) r =
          (bs, some ⟨cb.start, max cb.stop (r.offset + r.length),
            cb.requests ++ [r]⟩) by simp [addRequest, hjoin], ih]
        simp
      · rw [show addRequest gap (bs, some cb) r =
          (bs ++ [cb], some ⟨r.offset, r.offset + r.length, [r]⟩) by
            simp [addRequest, hjoin], ih]
        simp

lemma buildBatches_flatten (gap : Nat) (l : List ReadRequest) :
    (buildBatches gap l).flatMap Batch.requests = l := by
  have h := foldl_addRequest_flatten gap l [] none
  unfold buildBatches
  rcases hfold : l.foldl (addRequest gap) ([], none) with ⟨bs, cur⟩
  rw [hfold] at h
  cases cur with
  | none => simpa using h
  | some cb => simpa using h

lemma slice_readFileSlice (file : List Nat) (s e o n : Nat) (h1 : s ≤ o) (h2 : o + n ≤ e) :
    ((readFileSlice file s e).drop (o - s)).take n = readFileSlice file o (o + n) := by
  unfold readFileSlice
  rw [List.drop_take, List.drop_drop]
  have e1 : s + (o - s) = o := by omega
  have e2 : e - s - (o - s) = e - o := by omega
  rw [e1, e2, List.take_take]
  have e3 : min n (e - o) = n := by omega
  rw [e3, Nat.add_sub_cancel_left]

/-- C2: the scheduler sorts requests by offset; a request joins the
running batch exactly when its offset is at most the batch end plus the
gap tolerance (64 KiB in the implementation), extending the end to the
max of the old end and the request end; every original request lands in
exactly one batch; slicing a request's range out of its batch's single
read `[batch.start, batch.end)` reproduces the file bytes at
`[offset, offset+length)`; and the requests
`[(100,50),(200,50),(10000,50)]` with gap 1000 coalesce into exactly the
batches `[100,250)` and `[10000,10050)`. -/
theorem C2_range_scheduler (reqs : List ReadRequest) (file : List Nat) :
    MAX_GAP = 64 * 1024 ∧
    (∀ bs cb r, addRequest MAX_GAP (bs, some cb) r =
       if r.offset ≤ cb.stop + MAX_GAP then
         (bs, some ⟨cb.start, max cb.stop (r.offset + r.length), cb.requests ++ [r]⟩)
       else (bs ++ [cb], some ⟨r.offset, r.offset + r.length, [r]⟩)) ∧
    ((buildBatches MAX_GAP (sortRequests reqs)).flatMap Batch.requests).Perm reqs ∧
    (∀ b ∈ buildBatches MAX_GAP (sortRequests reqs), ∀ r ∈ b.requests,
       ((readFileSlice file b.start b.stop).drop (r.offset - b.start)).take r.length =
         readFileSlice file r.offset (r.offset + r.length)) ∧
    (buildBatches 1000 [⟨0, 0, .columnIndex, 100, 50⟩, ⟨0, 1, .columnIndex, 200, 50⟩,
        ⟨1, 0, .columnIndex, 10000, 50⟩]).map (fun b => (b.start, b.stop)) =
      [(100, 250), (10000, 10050)] := by
  refine ⟨rfl, fun bs cb r => rfl, ?_, ?_, by decide⟩
  · rw [buildBatches_flatten]
    exact List.perm_insertionSort reqLE reqs
  · intro b hb r hr
    have hinv := buildBatches_inv MAX_GAP (sortRequests reqs)
      (List.sorted_insertionSort reqLE reqs) b hb r hr
    exact slice_readFileSlice file b.start b.stop r.offset r.length hinv.1 hinv.2

/-- C2 witness: the slice-reconstruction property applied to the example
requests (which coalesce into the single batch `[100, 10050)` under the
64 KiB gap) over the concrete file `0,1,...,299`. -/
theorem C2_range_scheduler_witness :
    ((readFileSlice (List.range 300) 100 10050).drop (100 - 100)).take 50 =
      readFileSlice (List.range 300) 100 (100 + 50) := by
  exact (C2_range_scheduler
      [⟨0, 0, .columnIndex, 100, 50⟩, ⟨0, 1, .columnIndex, 200, 50⟩,
       ⟨1, 0, .columnIndex, 10000, 50⟩] (List.range 300)).2.2.2.1
    ⟨100, 10050, [⟨0, 0, .columnIndex, 100, 50⟩, ⟨0, 1, .columnIndex, 200, 50⟩,
       ⟨1, 0, .columnIndex, 10000, 50⟩]⟩ (by decide)
    ⟨0, 0, .columnIndex, 100, 50⟩ (by decide)

lemma getElem?_updateAt {α : Type} (l : List α) (i j : Nat) (f : α → α) :
    (updateAt l i f)[j]? = if i = j then (l[j]?).map f else l[j]? := by
  induction l generalizing i j with
  | nil => simp [updateAt]
  | cons x xs ih =>
    cases i with
    | zero =>
      cases j with
      | zero => simp [updateAt]
      | succ m => simp [updateAt]
    | succ n =>
      cases j with
      | zero => simp [updateAt]
      | succ m => simpa [updateAt] using ih n m

lemma slotGet_update {CI OI : Type} (st : List (List (PageIndexSlot CI OI)))
    (rg col rg' col' : Nat) (f : PageIndexSlot CI OI → PageIndexSlot CI OI) :
    slotGet (updateAt st rg fun row => updateAt row col f) rg' col' =
      if rg = rg' ∧ col = col' then (slotGet st rg' col').map f
      else slotGet st rg' col' := by
  unfold slotGet
  rw [getElem?_updateAt]
  by_cases h1 : rg = rg'
  · subst h1
    rw [if_pos rfl]
    cases hrow : st[rg]? with
    | none => simp
    | some row =>
      simp only [Option.map_some', Option.some_bind]
      rw [getElem?_updateAt]
      by_cases h2 : col = col'
      · subst h2
        simp
      · simp [h2]
  · simp [h1]

lemma applyRequest_ci {CI OI : Type} (dCI : List Nat → Option CI)
    (dOI : List Nat → Option OI) (bs : Nat) (bb : List Nat)
    (st : List (List (PageIndexSlot CI OI))) (req : ReadRequest) (rg col : Nat) :
    (slotGet (applyRequest dCI dOI bs bb st req) rg col).map PageIndexSlot.columnIndex =
      (slotGet st rg col).map fun s =>
        if req.rgIdx = rg ∧ req.colIdx = col ∧ req.type = IndexKind.columnIndex then
          (dCI ((bb.drop (req.offset - bs)).take req.length)).or s.columnIndex
        else s.columnIndex := by
  unfold applyRequest
  rcases htype : req.type with _ | _
  · rcases hdec : dCI ((bb.drop (req.offset - bs)).take req.length) with _ | v
    · simp only [htype]
      cases hslot : slotGet st rg col <;> simp [hdec, hslot]
    · simp only [htype]
      rw [hdec, slotGet_update]
      by_cases h : req.rgIdx = rg ∧ req.colIdx = col
      · rcases h with ⟨h1, h2⟩
        subst h1; subst h2
        cases hslot : slotGet st req.rgIdx req.colIdx <;> simp [hdec, hslot]
      · have : ¬(req.rgIdx = rg ∧ req.colIdx = col ∧ IndexKind.columnIndex = IndexKind.columnIndex) := by
          tauto
        cases hslot : slotGet st rg col <;> simp [h, this, hslot]
  · rcases hdec : dOI ((bb.drop (req.offset - bs)).take req.length) with _ | v
    · simp only [htype]
      cases hslot : slotGet st rg col <;> simp [hdec, hslot]
    · simp only [htype]
      rw [hdec, slotGet_update]
      by_cases h : req.rgIdx = rg ∧ req.colIdx = col
      · rcases h with ⟨h1, h2⟩
        subst h1; subst h2
        cases hslot : slotGet st req.rgIdx req.colIdx <;> simp [hdec, hslot]
      · cases hslot : slotGet st rg col <;> simp [h, hslot]

lemma applyRequest_oi {CI OI : Type} (dCI : List Nat → Option CI)
    (dOI : List Nat → Option OI) (bs : Nat) (bb : List Nat)
    (st : List (List (PageIndexSlot CI OI))) (req : ReadRequest) (rg col : Nat) :
    (slotGet (applyRequest dCI dOI bs bb st req) rg col).map PageIndexSlot.offsetIndex =
      (slotGet st rg col).map fun s =>
        if req.rgIdx = rg ∧ req.colIdx = col ∧ req.type = IndexKind.offsetIndex then
          (dOI ((bb.drop (req.offset - bs)).take req.length)).or s.offsetIndex
        else s.offsetIndex := by
  unfold applyRequest
  rcases htype : req.type with _ | _
  · rcases hdec : dCI ((bb.drop (req.offset - bs)).take req.length) with _ | v
    · simp only [htype]
      cases hslot : slotGet st rg col <;> simp [hdec, hslot]
    · simp only [htype]
      rw [hdec, slotGet_update]
      by_cases h : req.rgIdx = rg ∧ req.colIdx = col
      · rcases h with ⟨h1, h2⟩
        subst h1; subst h2
        cases hslot : slotGet st req.rgIdx req.colIdx <;> simp [hdec, hslot]
      · cases hslot : slotGet st rg col <;> simp [h, hslot]
  · rcases hdec : dOI ((bb.drop (req.offset - bs)).take req.length) with _ | v
    · simp only [htype]
      cases hslot : slotGet st rg col <;> simp [hdec, hslot]
    · simp only [htype]
      rw [hdec, slotGet_update]
      by_cases h : req.rgIdx = rg ∧ req.colIdx = col
      · rcases h with ⟨h1, h2⟩
        subst h1; subst h2
        cases hslot : slotGet st req.rgIdx req.colIdx <;> simp [hdec, hslot]
      · have : ¬(req.rgIdx = rg ∧ req.colIdx = col ∧ IndexKind.offsetIndex = IndexKind.offsetIndex) := by
          tauto
        cases hslot : slotGet st rg col <;> simp [h, this, hslot]

lemma foldl_processBatch_eq {CI OI : Type} (dCI : List Nat → Option CI)
    (dOI : List Nat → Option OI) (file : List Nat) (l : List Batch) :
    ∀ st, l.foldl (processBatch dCI dOI file) st =
      (l.flatMap fun b => b.requests.map fun r => (b, r)).foldl
        (fun st p => applyRequest dCI dOI p.1.start
          (readFileSlice file p.1.start p.1.stop) st p.2) st := by
  induction l with
  | nil => intro st; rfl
  | cons b l' ih =>
    intro st
    rw [List.foldl_cons, ih, List.flatMap_cons, List.foldl_append, List.foldl_map]
    rfl

lemma foldl_pairs_untouched_ci {CI OI : Type} (dCI : List Nat → Option CI)
    (dOI : List Nat → Option OI) (file : List Nat) (ps : List (Batch × ReadRequest)) :
    ∀ (st : List (List (PageIndexSlot CI OI))) (rg col : Nat),
      (∀ p ∈ ps, ¬(p.2.rgIdx = rg ∧ p.2.colIdx = col ∧ p.2.type = IndexKind.columnIndex)) →
      (slotGet (ps.foldl (fun st p => applyRequest dCI dOI p.1.start
          (readFileSlice file p.1.start p.1.stop) st p.2) st) rg col).map
        PageIndexSlot.columnIndex =
      (slotGet st rg col).map PageIndexSlot.columnIndex := by
  induction ps with
  | nil => intro st rg col _; rfl
  | cons p ps ih =>
    intro st rg col h
    rw [List.foldl_cons, ih _ _ _ (fun q hq => h q (List.mem_cons_of_mem _ hq)),
      applyRequest_ci]
    have hc : ¬(p.2.rgIdx = rg ∧ p.2.colIdx = col ∧ p.2.type = IndexKind.columnIndex) :=
      h p (List.mem_cons_self ..)
    by_cases h1 : p.2.rgIdx = rg
    · by_cases h2 : p.2.colIdx = col
      · have h3 : ¬ p.2.type = IndexKind.columnIndex := fun h3 => hc ⟨h1, h2, h3⟩
        simp [h1, h2, h3]
      · simp [h2]
    · simp [h1]

lemma foldl_pairs_untouched_oi {CI OI : Type} (dCI : List Nat → Option CI)
    (dOI : List Nat → Option OI) (file : List Nat) (ps : List (Batch × ReadRequest)) :
    ∀ (st : List (List (PageIndexSlot CI OI))) (rg col : Nat),
      (∀ p ∈ ps, ¬(p.2.rgIdx = rg ∧ p.2.colIdx = col ∧ p.2.type = IndexKind.offsetIndex)) →
      (slotGet (ps.foldl (fun st p => applyRequest dCI dOI p.1.start
          (readFileSlice file p.1.start p.1.stop) st p.2) st) rg col).map
        PageIndexSlot.offsetIndex =
      (slotGet st rg col).map PageIndexSlot.offsetIndex := by
  induction ps with
  | nil => intro st rg col _; rfl
  | cons p ps ih =>
    intro st rg col h
    rw [List.foldl_cons, ih _ _ _ (fun q hq => h q (List.mem_cons_of_mem _ hq)),
      applyRequest_oi]
    have hc : ¬(p.2.rgIdx = rg ∧ p.2.colIdx = col ∧ p.2.type = IndexKind.offsetIndex) :=
      h p (List.mem_cons_self ..)
    by_cases h1 : p.2.rgIdx = rg
    · by_cases h2 : p.2.colIdx = col
      · have h3 : ¬ p.2.type = IndexKind.offsetIndex := fun h3 => hc ⟨h1, h2, h3⟩
        simp [h1, h2, h3]
      · simp [h2]
    · simp [h1]

lemma foldl_pairs_touch_ci {CI OI : Type} (dCI : List Nat → Option CI)
    (dOI : List Nat → Option OI) (file : List Nat)
    (l1 l2 : List (Batch × ReadRequest)) (p : Batch × ReadRequest)
    (st : List (List (PageIndexSlot CI OI))) (rg col : Nat)
    (hp : p.2.rgIdx = rg ∧ p.2.colIdx = col ∧ p.2.type = IndexKind.columnIndex)
    (h1 : ∀ q ∈ l1, ¬(q.2.rgIdx = rg ∧ q.2.colIdx = col ∧ q.2.type = IndexKind.columnIndex))
    (h2 : ∀ q ∈ l2, ¬(q.2.rgIdx = rg ∧ q.2.colIdx = col ∧ q.2.type = IndexKind.columnIndex))
    (hinit : (slotGet st rg col).map PageIndexSlot.columnIndex = some none) :
    (slotGet ((l1 ++ p :: l2).foldl (fun st p => applyRequest dCI dOI p.1.start
        (readFileSlice file p.1.start p.1.stop) st p.2) st) rg col).map
      PageIndexSlot.columnIndex =
    some (dCI (((readFileSlice file p.1.start p.1.stop).drop
      (p.2.offset - p.1.start)).take p.2.length)) := by
  rw [List.foldl_append, List.foldl_cons,
    foldl_pairs_untouched_ci dCI dOI file l2 _ _ _ h2, applyRequest_ci]
  have hmid := foldl_pairs_untouched_ci dCI dOI file l1 st rg col h1
  rcases Option.map_eq_some'.mp (hmid.trans hinit) with ⟨s, hs, hcomp⟩
  rw [hs]
  simp [hp.1, hp.2.1, hp.2.2, hcomp]

lemma foldl_pairs_touch_oi {CI OI : Type} (dCI : List Nat → Option CI)
    (dOI : List Nat → Option OI) (file : List Nat)
    (l1 l2 : List (Batch × ReadRequest)) (p : Batch × ReadRequest)
    (st : List (List (PageIndexSlot CI OI))) (rg col : Nat)
    (hp : p.2.rgIdx = rg ∧ p.2.colIdx = col ∧ p.2.type = IndexKind.offsetIndex)
    (h1 : ∀ q ∈ l1, ¬(q.2.rgIdx = rg ∧ q.2.colIdx = col ∧ q.2.type = IndexKind.offsetIndex))
    (h2 : ∀ q ∈ l2, ¬(q.2.rgIdx = rg ∧ q.2.colIdx = col ∧ q.2.type = IndexKind.offsetIndex))
    (hinit : (slotGet st rg col).map PageIndexSlot.offsetIndex = some none) :
    (slotGet ((l1 ++ p :: l2).foldl (fun st p => applyRequest dCI dOI p.1.start
        (readFileSlice file p.1.start p.1.stop) st p.2) st) rg col).map
      PageIndexSlot.offsetIndex =
    some (dOI (((readFileSlice file p.1.start p.1.stop).drop
      (p.2.offset - p.1.start)).take p.2.length)) := by
  rw [List.foldl_append, List.foldl_cons,
    foldl_pairs_untouched_oi dCI dOI file l2 _ _ _ h2, applyRequest_oi]
  have hmid := foldl_pairs_untouched_oi dCI dOI file l1 st rg col h1
  rcases Option.map_eq_some'.mp (hmid.trans hinit) with ⟨s, hs, hcomp⟩
  rw [hs]
  simp [hp.1, hp.2.1, hp.2.2, hcomp]

lemma slotGet_initIndexes (CI OI : Type) (shape : List Nat) (rg col : Nat)
    (h1 : rg < shape.length) (h2 : col < shape.getD rg 0) :
    slotGet (initIndexes CI OI shape) rg col = some ⟨none, none⟩ := by
  unfold initIndexes slotGet
  rw [List.getElem?_map, List.getElem?_eq_getElem h1]
  have hD : shape.getD rg 0 = shape[rg] := by
    simp [List.getD, List.getElem?_eq_getElem h1]
  rw [hD] at h2
  simp [List.getElem?_replicate, h2]

lemma pairs_map_snd (batches : List Batch) :
    ((batches.flatMap fun b => b.requests.map fun r => (b, r)).map Prod.snd) =
      batches.flatMap Batch.requests := by
  induction batches with
  | nil => rfl
  | cons b l ih => simp [List.flatMap_cons, ih, List.map_map, Function.comp_def]

/-- Per-slot isolation in the streaming path.  For any decoders (`none`
modelling a thrown decode error, e.g. on truncated bytes), every
requested slot of `parsePageIndexesStreaming` ends up holding exactly
the decode result of its own byte range — `none` iff its own decode
failed — independent of every other slot, and slots without a request
stay null. -/
lemma streaming_per_slot_isolation {CI OI : Type} (dCI : List Nat → Option CI)
    (dOI : List Nat → Option OI) (file : List Nat) (shape : List Nat)
    (reqs : List ReadRequest)
    (hkeys : (reqs.map fun r => (r.rgIdx, r.colIdx, r.type)).Nodup)
    (hrange : ∀ r ∈ reqs, r.rgIdx < shape.length ∧ r.colIdx < shape.getD r.rgIdx 0) :
    (∀ r ∈ reqs,
      (r.type = IndexKind.columnIndex →
        (slotGet (parsePageIndexesStreamingModel dCI dOI file shape reqs)
            r.rgIdx r.colIdx).map PageIndexSlot.columnIndex =
          some (dCI (readFileSlice file r.offset (r.offset + r.length)))) ∧
      (r.type = IndexKind.offsetIndex →
        (slotGet (parsePageIndexesStreamingModel dCI dOI file shape reqs)
            r.rgIdx r.colIdx).map PageIndexSlot.offsetIndex =
          some (dOI (readFileSlice file r.offset (r.offset + r.length))))) ∧
    (∀ rg col, rg < shape.length → col < shape.getD rg 0 →
      ((∀ r ∈ reqs, ¬(r.rgIdx = rg ∧ r.colIdx = col ∧ r.type = IndexKind.columnIndex)) →
        (slotGet (parsePageIndexesStreamingModel dCI dOI file shape reqs) rg col).map
          PageIndexSlot.columnIndex = some none) ∧
      ((∀ r ∈ reqs, ¬(r.rgIdx = rg ∧ r.colIdx = col ∧ r.type = IndexKind.offsetIndex)) →
        (slotGet (parsePageIndexesStreamingModel dCI dOI file shape reqs) rg col).map
          PageIndexSlot.offsetIndex = some none)) := by
  have hsorted : (sortRequests reqs).Pairwise reqLE :=
    List.sorted_insertionSort reqLE reqs
  have hperm : (sortRequests reqs).Perm reqs := List.perm_insertionSort reqLE reqs
  have hmodel : parsePageIndexesStreamingModel dCI dOI file shape reqs =
      ((buildBatches MAX_GAP (sortRequests reqs)).flatMap fun b =>
        b.requests.map fun r => (b, r)).foldl
        (fun st p => applyRequest dCI dOI p.1.start
          (readFileSlice file p.1.start p.1.stop) st p.2) (initIndexes CI OI shape) := by
    unfold parsePageIndexesStreamingModel
    exact foldl_processBatch_eq dCI dOI file _ _
  have hsnd : ((buildBatches MAX_GAP (sortRequests reqs)).flatMap fun b =>
      b.requests.map fun r => (b, r)).map Prod.snd = sortRequests reqs :=
    (pairs_map_snd _).trans (buildBatches_flatten _ _)
  have hkeys' : (((buildBatches MAX_GAP (sortRequests reqs)).flatMap fun b =>
      b.requests.map fun r => (b, r)).map fun p =>
        (p.2.rgIdx, p.2.colIdx, p.2.type)).Nodup := by
    have heq : (((buildBatches MAX_GAP (sortRequests reqs)).flatMap fun b =>
        b.requests.map fun r => (b, r)).map fun p =>
          (p.2.rgIdx, p.2.colIdx, p.2.type)) =
        (((buildBatches MAX_GAP (sortRequests reqs)).flatMap fun b =>
          b.requests.map fun r => (b, r)).map Prod.snd).map fun r =>
            (r.rgIdx, r.colIdx, r.type) := by
      rw [List.map_map]
      rfl
    rw [heq, hsnd]
    exact ((hperm.map fun r => (r.rgIdx, r.colIdx, r.type)).nodup_iff).mpr hkeys
  constructor
  · intro r hr
    have hr' : r ∈ sortRequests reqs := hperm.mem_iff.mpr hr
    have hrmap : r ∈ ((buildBatches MAX_GAP (sortRequests reqs)).flatMap fun b =>
        b.requests.map fun r => (b, r)).map Prod.snd := by
      rw [hsnd]; exact hr'
    obtain ⟨p, hp_mem, hp_snd⟩ := List.mem_map.mp hrmap
    obtain ⟨b, hb, hpin⟩ := List.mem_flatMap.mp hp_mem
    obtain ⟨q, hq, hpq⟩ := List.mem_map.mp hpin
    have hp1 : p.1 = b := by rw [← hpq]
    have hp2q : p.2 = q := by rw [← hpq]
    have hreqmem : p.2 ∈ p.1.requests := by rw [hp1, hp2q]; exact hq
    have hinv := buildBatches_inv MAX_GAP (sortRequests reqs) hsorted p.1
      (hp1 ▸ hb) p.2 hreqmem
    have hbytes := slice_readFileSlice file p.1.start p.1.stop p.2.offset p.2.length
      hinv.1 hinv.2
    obtain ⟨l1, l2, hps⟩ := List.append_of_mem hp_mem
    have hnd := hkeys'
    rw [hps, List.map_append, List.map_cons] at hnd
    rcases List.nodup_append.mp hnd with ⟨-, hnd2, hdisj⟩
    rcases List.nodup_cons.mp hnd2 with ⟨hnotl2, -⟩
    have hnotl1 : (p.2.rgIdx, p.2.colIdx, p.2.type) ∉
        l1.map fun p => (p.2.rgIdx, p.2.colIdx, p.2.type) :=
      fun hmem => hdisj hmem (List.mem_cons_self ..)
    have hclean1 : ∀ x ∈ l1, ¬(x.2.rgIdx = r.rgIdx ∧ x.2.colIdx = r.colIdx ∧
        x.2.type = r.type) := by
      intro x hx hcon
      exact hnotl1 (by
        rw [hp_snd, ← hcon.1, ← hcon.2.1, ← hcon.2.2]
        exact List.mem_map_of_mem _ hx)
    have hclean2 : ∀ x ∈ l2, ¬(x.2.rgIdx = r.rgIdx ∧ x.2.colIdx = r.colIdx ∧
        x.2.type = r.type) := by
      intro x hx hcon
      exact hnotl2 (by
        rw [hp_snd, ← hcon.1, ← hcon.2.1, ← hcon.2.2]
        exact List.mem_map_of_mem _ hx)
    have hinitslot : slotGet (initIndexes CI OI shape) r.rgIdx r.colIdx =
        some ⟨none, none⟩ :=
      slotGet_initIndexes CI OI shape r.rgIdx r.colIdx (hrange r hr).1 (hrange r hr).2
    constructor
    · intro htype
      rw [hmodel, hps]
      have happly := foldl_pairs_touch_ci dCI dOI file l1 l2 p
        (initIndexes CI OI shape) r.rgIdx r.colIdx
        ⟨by rw [hp_snd], by rw [hp_snd], by rw [hp_snd]; exact htype⟩
        (fun x hx hc => hclean1 x hx ⟨hc.1, hc.2.1, by rw [htype]; exact hc.2.2⟩)
        (fun x hx hc => hclean2 x hx ⟨hc.1, hc.2.1, by rw [htype]; exact hc.2.2⟩)
        (by rw [hinitslot]; rfl)
      rw [happly, hbytes, hp_snd]
    · intro htype
      rw [hmodel, hps]
      have happly := foldl_pairs_touch_oi dCI dOI file l1 l2 p
        (initIndexes CI OI shape) r.rgIdx r.colIdx
        ⟨by rw [hp_snd], by rw [hp_snd], by rw [hp_snd]; exact htype⟩
        (fun x hx hc => hclean1 x hx ⟨hc.1, hc.2.1, by rw [htype]; exact hc.2.2⟩)
        (fun x hx hc => hclean2 x hx ⟨hc.1, hc.2.1, by rw [htype]; exact hc.2.2⟩)
        (by rw [hinitslot]; rfl)
      rw [happly, hbytes, hp_snd]
  · intro rg col h1 h2
    have hmemreqs : ∀ p ∈ ((buildBatches MAX_GAP (sortRequests reqs)).flatMap fun b =>
        b.requests.map fun r => (b, r)), p.2 ∈ reqs := by
      intro p hp
      have : p.2 ∈ ((buildBatches MAX_GAP (sortRequests reqs)).flatMap fun b =>
          b.requests.map fun r => (b, r)).map Prod.snd := List.mem_map_of_mem _ hp
      rw [hsnd] at this
      exact hperm.mem_iff.mp this
    constructor
    · intro hnone
      rw [hmodel,
        foldl_pairs_untouched_ci dCI dOI file _ _ _ _
          (fun p hp => hnone p.2 (hmemreqs p hp)),
        slotGet_initIndexes CI OI shape rg col h1 h2]
      rfl
    · intro hnone
      rw [hmodel,
        foldl_pairs_untouched_oi dCI dOI file _ _ _ _
          (fun p hp => hnone p.2 (hmemreqs p hp)),
        slotGet_initIndexes CI OI shape rg col h1 h2]
      rfl

lemma parsePageIndexesSlot_fields {CI OI : Type} (readCI : List Nat → Except CI CI)
    (readOI : List Nat → Except OI OI) (bytes : List Nat) (chunk : ColumnChunkIndexLoc) :
    (parsePageIndexesSlot readCI readOI bytes chunk).columnIndex =
      (if chunk.column_index_offset ≠ 0 ∧ chunk.column_index_length ≠ 0 then
        some (match readCI ((bytes.drop chunk.column_index_offset).take
            chunk.column_index_length) with
          | .ok v => v
          | .error p => p)
      else none) ∧
    (parsePageIndexesSlot readCI readOI bytes chunk).offsetIndex =
      (if chunk.offset_index_offset ≠ 0 ∧ chunk.offset_index_length ≠ 0 then
        some (match readOI ((bytes.drop chunk.offset_index_offset).take
            chunk.offset_index_length) with
          | .ok v => v
          | .error p => p)
      else none) := by
  unfold parsePageIndexesSlot
  by_cases h1 : chunk.column_index_offset ≠ 0 ∧ chunk.column_index_length ≠ 0 <;>
    by_cases h2 : chunk.offset_index_offset ≠ 0 ∧ chunk.offset_index_length ≠ 0 <;>
    rcases hci : readCI ((bytes.drop chunk.column_index_offset).take
      chunk.column_index_length) with v | p <;>
    rcases hoi : readOI ((bytes.drop chunk.offset_index_offset).take
      chunk.offset_index_length) with w | q <;>
    simp [h1, h2, hci, hoi]

/-- C3 counterexample: in the legacy `parsePageIndexes`, the fresh index
object is assigned before the Thrift read, so a decode that throws
mid-struct leaves the slot holding the partially-populated object — not
null.  Chunk (0,0)'s byte range is truncated to a single byte and its
decode throws with partial object state 1, yet its slot holds `some 1`
rather than the claimed null; the neighbouring well-formed chunk (0,1)
decodes normally in the same run. -/
theorem C3_legacy_slot_not_null :
    slotGet (parsePageIndexes
      (fun b => if b.length < 2 then Except.error 1 else Except.ok 7)
      (fun _ => (Except.error 0 : Except Nat Nat))
      [5, 6, 7, 8, 9]
      [[⟨4, 5, 0, 0⟩, ⟨1, 2, 0, 0⟩]]) 0 0 = some ⟨some 1, none⟩ ∧
    slotGet (parsePageIndexes
      (fun b => if b.length < 2 then Except.error 1 else Except.ok 7)
      (fun _ => (Except.error 0 : Except Nat Nat))
      [5, 6, 7, 8, 9]
      [[⟨4, 5, 0, 0⟩, ⟨1, 2, 0, 0⟩]]) 0 1 = some ⟨some 7, none⟩ :=
  ⟨rfl, rfl⟩

/-- C3 amended: a per-chunk index decode failure never aborts the
overall decode and affects only its own slot, with every other
well-formed slot populated normally; in the streaming path
(`parsePageIndexesStreaming`) the failing slot is left null, while in
the legacy path (`parsePageIndexes`) the slot was assigned a fresh index
object before the Thrift read and therefore holds that
partially-populated non-null object on failure. -/
theorem C3_per_slot_isolation_amended {CI OI : Type} (dCI : List Nat → Option CI)
    (dOI : List Nat → Option OI) (file : List Nat) (shape : List Nat)
    (reqs : List ReadRequest)
    (hkeys : (reqs.map fun r => (r.rgIdx, r.colIdx, r.type)).Nodup)
    (hrange : ∀ r ∈ reqs, r.rgIdx < shape.length ∧ r.colIdx < shape.getD r.rgIdx 0) :
    (∀ r ∈ reqs,
      (r.type = IndexKind.columnIndex →
        (slotGet (parsePageIndexesStreamingModel dCI dOI file shape reqs)
            r.rgIdx r.colIdx).map PageIndexSlot.columnIndex =
          some (dCI (readFileSlice file r.offset (r.offset + r.length)))) ∧
      (r.type = IndexKind.offsetIndex →
        (slotGet (parsePageIndexesStreamingModel dCI dOI file shape reqs)
            r.rgIdx r.colIdx).map PageIndexSlot.offsetIndex =
          some (dOI (readFileSlice file r.offset (r.offset + r.length))))) ∧
    (∀ rg col, rg < shape.length → col < shape.getD rg 0 →
      ((∀ r ∈ reqs, ¬(r.rgIdx = rg ∧ r.colIdx = col ∧ r.type = IndexKind.columnIndex)) →
        (slotGet (parsePageIndexesStreamingModel dCI dOI file shape reqs) rg col).map
          PageIndexSlot.columnIndex = some none) ∧
      ((∀ r ∈ reqs, ¬(r.rgIdx = rg ∧ r.colIdx = col ∧ r.type = IndexKind.offsetIndex)) →
        (slotGet (parsePageIndexesStreamingModel dCI dOI file shape reqs) rg col).map
          PageIndexSlot.offsetIndex = some none)) ∧
    (∀ (readCI : List Nat → Except CI CI) (readOI : List Nat → Except OI OI)
       (bytes : List Nat) (chunks : List (List ColumnChunkIndexLoc)) (rg col : Nat)
       (chunk : ColumnChunkIndexLoc),
      (chunks[rg]?).bind (fun row => row[col]?) = some chunk →
      ∃ s, slotGet (parsePageIndexes readCI readOI bytes chunks) rg col = some s ∧
        s.columnIndex =
          (if chunk.column_index_offset ≠ 0 ∧ chunk.column_index_length ≠ 0 then
            some (match readCI ((bytes.drop chunk.column_index_offset).take
                chunk.column_index_length) with
              | .ok v => v
              | .error p => p)
          else none) ∧
        s.offsetIndex =
          (if chunk.offset_index_offset ≠ 0 ∧ chunk.offset_index_length ≠ 0 then
            some (match readOI ((bytes.drop chunk.offset_index_offset).take
                chunk.offset_index_length) with
              | .ok v => v
              | .error p => p)
          else none)) := by
  obtain ⟨h1, h2⟩ := streaming_per_slot_isolation dCI dOI file shape reqs hkeys hrange
  refine ⟨h1, h2, ?_⟩
  intro readCI readOI bytes chunks rg col chunk hchunk
  rcases Option.bind_eq_some.mp hchunk with ⟨row, hrow, hcol⟩
  refine ⟨parsePageIndexesSlot readCI readOI bytes chunk, ?_,
    (parsePageIndexesSlot_fields readCI readOI bytes chunk).1,
    (parsePageIndexesSlot_fields readCI readOI bytes chunk).2⟩
  unfold parsePageIndexes slotGet
  rw [List.getElem?_map, hrow, Option.map_some', Option.some_bind, List.getElem?_map,
    hcol, Option.map_some']

/-- C3 witness: the streaming half of the amended claim at a concrete
input — a decoder failing on byte ranges of length other than 2 leaves
the short-bytes slot null while populating its well-formed neighbour in
the same run. -/
theorem C3_per_slot_isolation_amended_witness :
    (slotGet (parsePageIndexesStreamingModel
        (fun bytes => if bytes.length = 2 then some () else none)
        (fun _ => (none : Option Unit)) [10, 20, 30] [2]
        [⟨0, 0, .columnIndex, 0, 2⟩, ⟨0, 1, .columnIndex, 2, 1⟩]) 0 0).map
      PageIndexSlot.columnIndex = some (some ()) ∧
    (slotGet (parsePageIndexesStreamingModel
        (fun bytes => if bytes.length = 2 then some () else none)
        (fun _ => (none : Option Unit)) [10, 20, 30] [2]
        [⟨0, 0, .columnIndex, 0, 2⟩, ⟨0, 1, .columnIndex, 2, 1⟩]) 0 1).map
      PageIndexSlot.columnIndex = some none := by
  have h := C3_per_slot_isolation_amended
    (fun bytes => if bytes.length = 2 then some () else none)
    (fun _ => (none : Option Unit)) [10, 20, 30] [2]
    [⟨0, 0, .columnIndex, 0, 2⟩, ⟨0, 1, .columnIndex, 2, 1⟩] (by decide) (by decide)
  constructor
  · have h1 := (h.1 ⟨0, 0, .columnIndex, 0, 2⟩ (by decide)).1 rfl
    rw [h1]
    rfl
  · have h2 := (h.1 ⟨0, 1, .columnIndex, 2, 1⟩ (by decide)).1 rfl
    rw [h2]
    rfl

lemma foldlM_processBatchFallible_error {CI OI ε : Type} (dCI : List Nat → Option CI)
    (dOI : List Nat → Option OI) (readRange : Nat → Nat → Except ε (List Nat))
    (l : List Batch) :
    ∀ st, (∃ b ∈ l, ∃ e, readRange b.start b.stop = Except.error e) →
      ∃ e, l.foldlM (processBatchFallible dCI dOI readRange) st = Except.error e := by
  induction l with
  | nil => intro st h; simp at h
  | cons b l' ih =>
    intro st h
    rw [List.foldlM_cons]
    rcases hread : readRange b.start b.stop with e | bytes
    · refine ⟨e, ?_⟩
      have hpb : processBatchFallible dCI dOI readRange st b = Except.error e := by
        simp [processBatchFallible, hread]
      rw [hpb]
      rfl
    · rcases h with ⟨b0, hb0, e0, he0⟩
      rcases List.mem_cons.mp hb0 with rfl | hb0
      · rw [hread] at he0
        exact absurd he0 (by simp)
      · have := ih (b.requests.foldl
          (applyRequest dCI dOI b.start bytes) st) ⟨b0, hb0, e0, he0⟩
        rcases this with ⟨e, he⟩
        refine ⟨e, ?_⟩
        simpa [processBatchFallible, hread] using he

lemma foldlM_processBatchFallible_ok {CI OI ε : Type} (dCI : List Nat → Option CI)
    (dOI : List Nat → Option OI) (readRange : Nat → Nat → Except ε (List Nat))
    (l : List Batch) :
    ∀ st, (∀ b ∈ l, ∃ bytes, readRange b.start b.stop = Except.ok bytes) →
      ∃ st', l.foldlM (processBatchFallible dCI dOI readRange) st = Except.ok st' := by
  induction l with
  | nil => intro st _; exact ⟨st, rfl⟩
  | cons b l' ih =>
    intro st h
    rw [List.foldlM_cons]
    rcases h b (List.mem_cons_self ..) with ⟨bytes, hread⟩
    have := ih (b.requests.foldl (applyRequest dCI dOI b.start bytes) st)
      (fun b' hb' => h b' (List.mem_cons_of_mem _ hb'))
    rcases this with ⟨st', hst'⟩
    refine ⟨st', ?_⟩
    simpa [processBatchFallible, hread] using hst'

/-- C4 counterexample: two coalesced batches, the read for the first one
fails, the read for the second would succeed and its request decodes fine
— yet `parsePageIndexesStreaming` does not complete with a partial
result: the `await readFileSlice(file, batch.start, batch.end)` of the
batch loop is outside every `try`, so the error propagates and the whole
decode aborts with it. -/
theorem C4_batch_read_failure_aborts :
    parsePageIndexesStreamingFallible
      (fun _ => (some () : Option Unit)) (fun _ => (some () : Option Unit))
      (fun s _ => if s = 0 then (Except.error "io" : Except String (List Nat))
        else Except.ok (List.replicate 50 0))
      [2]
      [⟨0, 0, .columnIndex, 0, 4⟩, ⟨0, 1, .columnIndex, 200000, 4⟩] =
      Except.error "io" := by
  rfl

/-- C4 amended: a failed byte-range read for one coalesced index batch is
not isolated — it propagates out of `parsePageIndexesStreaming`, which
then produces no result at all; the decode completes only when every
batch read succeeds.  (Per-slot isolation holds only for decode
failures, C3.) -/
theorem C4_batch_read_propagates {CI OI ε : Type} (dCI : List Nat → Option CI)
    (dOI : List Nat → Option OI) (readRange : Nat → Nat → Except ε (List Nat))
    (shape : List Nat) (reqs : List ReadRequest) :
    ((∃ b ∈ buildBatches MAX_GAP (sortRequests reqs), ∃ e,
        readRange b.start b.stop = Except.error e) →
      ∃ e, parsePageIndexesStreamingFallible dCI dOI readRange shape reqs =
        Except.error e) ∧
    ((∀ b ∈ buildBatches MAX_GAP (sortRequests reqs), ∃ bytes,
        readRange b.start b.stop = Except.ok bytes) →
      ∃ st, parsePageIndexesStreamingFallible dCI dOI readRange shape reqs =
        Except.ok st) := by
  constructor
  · intro h
    exact foldlM_processBatchFallible_error dCI dOI readRange _ _ h
  · intro h
    exact foldlM_processBatchFallible_ok dCI dOI readRange _ _ h

/-- C4 witness: the amended propagation law applied at the concrete
failing-read configuration. -/
theorem C4_batch_read_propagates_witness :
    ∃ e, parsePageIndexesStreamingFallible
      (fun _ => (some () : Option Unit)) (fun _ => (some () : Option Unit))
      (fun s _ => if s = 0 then (Except.error "io" : Except String (List Nat))
        else Except.ok (List.replicate 50 0))
      [2]
      [⟨0, 0, .columnIndex, 0, 4⟩, ⟨0, 1, .columnIndex, 200000, 4⟩] =
      Except.error e :=
  (C4_batch_read_propagates
      (fun _ => (some () : Option Unit)) (fun _ => (some () : Option Unit))
      (fun s _ => if s = 0 then (Except.error "io" : Except String (List Nat))
        else Except.ok (List.replicate 50 0))
      [2]
      [⟨0, 0, .columnIndex, 0, 4⟩, ⟨0, 1, .columnIndex, 200000, 4⟩]).1
    ⟨⟨0, 4, [⟨0, 0, .columnIndex, 0, 4⟩]⟩, by decide, "io", by rfl⟩

lemma leftpad_def (n : Nat) (a : Char) (l : List Char) :
    List.leftpad n a l = List.replicate (n - l.length) a ++ l := rfl

lemma leftpad_leftpad (m k : Nat) (a : Char) (l : List Char) (h : k ≤ m) :
    List.leftpad m a (List.leftpad k a l) = List.leftpad m a l := by
  rw [leftpad_def, leftpad_def, leftpad_def, List.length_append, List.length_replicate,
    ← List.append_assoc, ← List.replicate_add]
  have : m - (k - l.length + l.length) + (k - l.length) = m - l.length := by omega
  rw [this]

lemma leftpad_append_right (n : Nat) (a : Char) (X F : List Char) :
    List.leftpad (n + F.length) a (X ++ F) = List.leftpad n a X ++ F := by
  rw [leftpad_def, leftpad_def, List.length_append, ← List.append_assoc]
  have : n + F.length - (X.length + F.length) = n - X.length := by omega
  rw [this]

lemma toDigitsAux_fuel (f1 : Nat) : ∀ (f2 n : Nat), n < f1 → n < f2 →
    toDigitsAux f1 n = toDigitsAux f2 n := by
  induction f1 with
  | zero => intro f2 n h1 _; omega
  | succ g ih =>
    intro f2 n h1 h2
    rcases f2 with _ | h
    · omega
    · show toDigitsAux (g + 1) n = toDigitsAux (h + 1) n
      by_cases hn : n < 10
      · simp [toDigitsAux, hn]
      · have hdiv : n / 10 < n := Nat.div_lt_self (by omega) (by omega)
        simp only [toDigitsAux, if_neg hn]
        rw [ih (h) (n / 10) (by omega) (by omega)]

lemma natToDigitList_eq (n : Nat) :
    natToDigitList n = if n < 10 then [digitChar n]
      else natToDigitList (n / 10) ++ [digitChar (n % 10)] := by
  by_cases hn : n < 10
  · rw [if_pos hn]
    unfold natToDigitList
    simp [toDigitsAux, hn]
  · have hdiv : n / 10 < n := Nat.div_lt_self (by omega) (by omega)
    rw [if_neg hn]
    show toDigitsAux (n + 1) n = _
    rw [show toDigitsAux (n + 1) n =
      if n < 10 then [digitChar n] else toDigitsAux n (n / 10) ++ [digitChar (n % 10)]
      from rfl, if_neg hn]
    unfold natToDigitList
    congr 1
    exact toDigitsAux_fuel n (n / 10 + 1) (n / 10) (by omega) (by omega)

lemma natToDigitList_single (n : Nat) (h : n < 10) : natToDigitList n = [digitChar n] := by
  rw [natToDigitList_eq, if_pos h]

lemma natToDigitList_ne_nil (n : Nat) : natToDigitList n ≠ [] := by
  rw [natToDigitList_eq]
  by_cases hn : n < 10 <;> simp [hn]

lemma natToDigitList_length_le (s : Nat) : ∀ n, n < 10 ^ (s + 1) →
    (natToDigitList n).length ≤ s + 1 := by
  induction s with
  | zero =>
    intro n h
    rw [natToDigitList_single n (by omega)]
    simp
  | succ t ih =>
    intro n h
    by_cases hn : n < 10
    · rw [natToDigitList_single n hn]; simp
    · rw [natToDigitList_eq, if_neg hn, List.length_append]
      have : n / 10 < 10 ^ (t + 1) := by
        rw [Nat.div_lt_iff_lt_mul (by omega)]
        calc n < 10 ^ (t + 1 + 1) := h
        _ = 10 ^ (t + 1) * 10 := by ring
      have := ih (n / 10) this
      simp only [List.length_singleton]
      omega

lemma natToDigitList_length_le' (s n : Nat) (hs : 1 ≤ s) (h : n < 10 ^ s) :
    (natToDigitList n).length ≤ s := by
  rcases s with _ | t
  · omega
  · exact natToDigitList_length_le t n h

lemma digit_shift (s : Nat) (hs : 1 ≤ s) (r : Nat) (hr : r < 10 ^ (s + 1)) :
    List.leftpad s '0' (natToDigitList (r / 10)) ++ [digitChar (r % 10)] =
      List.leftpad (s + 1) '0' (natToDigitList r) := by
  by_cases h10 : r < 10
  · have hdiv : r / 10 = 0 := by omega
    have hmod : r % 10 = r := by omega
    rw [hdiv, hmod, natToDigitList_single 0 (by omega), natToDigitList_single r h10,
      leftpad_def, leftpad_def]
    simp only [List.length_singleton]
    have h1 : List.replicate (s - 1) '0' ++ [digitChar 0] = List.replicate s '0' := by
      rw [show digitChar 0 = '0' from rfl, ← List.replicate_succ']
      congr 1
      omega
    rw [h1, show s + 1 - 1 = s by omega]
  · have hlen : (natToDigitList (r / 10)).length ≤ s := by
      apply natToDigitList_length_le' s (r / 10) hs
      rw [Nat.div_lt_iff_lt_mul (by omega)]
      calc r < 10 ^ (s + 1) := hr
      _ = 10 ^ s * 10 := by ring
    rw [natToDigitList_eq r, if_neg h10, leftpad_def, leftpad_def, List.length_append,
      List.length_singleton, List.append_assoc]
    congr 2
    omega

lemma natToDigitList_decompose (s : Nat) : ∀ d r, 1 ≤ s → 1 ≤ d → d < 10 → r < 10 ^ s →
    natToDigitList (d * 10 ^ s + r) = digitChar d :: List.leftpad s '0' (natToDigitList r) := by
  induction s with
  | zero => intro d r hs _ _ _; omega
  | succ t ih =>
    intro d r _ hd1 hd9 hr
    rcases Nat.eq_zero_or_pos t with rfl | ht
    · have h10 : d * 10 ^ 1 + r ≥ 10 := by simp at hr ⊢; omega
      rw [natToDigitList_eq, if_neg (by omega)]
      have hdiv : (d * 10 ^ 1 + r) / 10 = d := by simp at hr ⊢; omega
      have hmod : (d * 10 ^ 1 + r) % 10 = r := by simp at hr ⊢; omega
      rw [hdiv, hmod, natToDigitList_single d hd9, natToDigitList_single r (by simp at hr; omega),
        leftpad_def]
      simp
    · have hpow : (10 : Nat) ^ (t + 1) = 10 ^ t * 10 := by ring
      have hge : d * 10 ^ (t + 1) + r ≥ 10 := by
        have : (10 : Nat) ^ (t + 1) ≥ 10 := by
          calc (10 : Nat) ^ (t + 1) ≥ 10 ^ 1 := Nat.pow_le_pow_right (by omega) (by omega)
          _ = 10 := by ring
        nlinarith
      rw [natToDigitList_eq, if_neg (by omega)]
      have hdiv : (d * 10 ^ (t + 1) + r) / 10 = d * 10 ^ t + r / 10 := by
        rw [hpow, show d * (10 ^ t * 10) + r = r + 10 * (d * 10 ^ t) by ring,
          Nat.add_mul_div_left _ _ (by omega : (0:Nat) < 10)]
        omega
      have hmod : (d * 10 ^ (t + 1) + r) % 10 = r % 10 := by
        rw [hpow, show d * (10 ^ t * 10) + r = r + d * 10 ^ t * 10 by ring,
          Nat.add_mul_mod_self_right]
      have hrdiv : r / 10 < 10 ^ t := by
        rw [Nat.div_lt_iff_lt_mul (by omega)]
        calc r < 10 ^ (t + 1) := hr
        _ = 10 ^ t * 10 := by ring
      rw [hdiv, hmod, ih d (r / 10) ht hd1 hd9 hrdiv, List.cons_append,
        digit_shift t ht r hr]

lemma leftpad_split_one (n : Nat) :
    List.leftpad 2 '0' (natToDigitList n) =
      natToDigitList (n / 10) ++ List.leftpad 1 '0' (natToDigitList (n % 10)) := by
  by_cases hn : n < 10
  · have hdiv : n / 10 = 0 := by omega
    have hmod : n % 10 = n := by omega
    rw [hdiv, hmod, natToDigitList_single n hn, natToDigitList_single 0 (by omega),
      leftpad_def, leftpad_def]
    rfl
  · have h1 : 1 ≤ (natToDigitList (n / 10)).length :=
      List.length_pos.mpr (natToDigitList_ne_nil _)
    rw [natToDigitList_eq n, if_neg hn, natToDigitList_single (n % 10) (by omega),
      leftpad_def, leftpad_def]
    simp only [List.length_append, List.length_singleton]
    have e1 : 2 - ((natToDigitList (n / 10)).length + 1) = 0 := by omega
    rw [e1]
    simp

lemma leftpad_split (s : Nat) : ∀ n, 1 ≤ s →
    List.leftpad (s + 1) '0' (natToDigitList n) =
      natToDigitList (n / 10 ^ s) ++ List.leftpad s '0' (natToDigitList (n % 10 ^ s)) := by
  induction s with
  | zero => intro n hs; omega
  | succ t ih =>
    intro n _
    rcases Nat.eq_zero_or_pos t with rfl | ht
    · have hdiv10 : n / 10 ^ 1 = n / 10 := by norm_num
      have hmod10 : n % 10 ^ 1 = n % 10 := by norm_num
      rw [hdiv10, hmod10]
      exact leftpad_split_one n
    · have habs : List.leftpad (t + 1 + 1) '0' (natToDigitList n) =
          List.leftpad (t + 1 + 1) '0' (List.leftpad (t + 1) '0' (natToDigitList n)) :=
        (leftpad_leftpad _ _ _ _ (by omega)).symm
      rw [habs, ih n ht]
      have hmodlt : n % 10 ^ t < 10 ^ t := Nat.mod_lt _ (by positivity)
      have hFlen : (List.leftpad t '0' (natToDigitList (n % 10 ^ t))).length = t := by
        rw [List.leftpad_length]
        have := natToDigitList_length_le' t (n % 10 ^ t) ht hmodlt
        omega
      have hsplit2 : List.leftpad (t + 1 + 1) '0'
          (natToDigitList (n / 10 ^ t) ++ List.leftpad t '0' (natToDigitList (n % 10 ^ t))) =
          List.leftpad 2 '0' (natToDigitList (n / 10 ^ t)) ++
            List.leftpad t '0' (natToDigitList (n % 10 ^ t)) := by
        have h2 := leftpad_append_right 2 '0' (natToDigitList (n / 10 ^ t))
          (List.leftpad t '0' (natToDigitList (n % 10 ^ t)))
        rw [hFlen] at h2
        rw [show t + 1 + 1 = 2 + t by omega]
        exact h2
      rw [hsplit2, leftpad_split_one (n / 10 ^ t)]
      have hdivdiv : n / 10 ^ t / 10 = n / 10 ^ (t + 1) := by
        rw [Nat.div_div_eq_div_mul, Nat.pow_succ]
      rw [hdivdiv, List.append_assoc]
      congr 1
      -- remaining: leftpad 1 '0' (D (n / 10 ^ t % 10)) ++ F = leftpad (t+1) '0' (D (n % 10 ^ (t+1)))
      have hmodsucc : n % 10 ^ (t + 1) = n % 10 ^ t + 10 ^ t * (n / 10 ^ t % 10) :=
        Nat.mod_pow_succ
      have hlenmod : (natToDigitList (n % 10 ^ t)).length ≤ t :=
        natToDigitList_length_le' t _ ht hmodlt
      rcases Nat.eq_zero_or_pos (n / 10 ^ t % 10) with hd0 | hdpos
      · have hm0 : n % 10 ^ (t + 1) = n % 10 ^ t := by
          rw [hmodsucc, hd0]
          simp
        rw [hd0, hm0, natToDigitList_single 0 (by omega)]
        have hl1 : List.leftpad 1 '0' [digitChar 0] = [digitChar 0] := by
          rw [leftpad_def]
          simp
        rw [hl1, leftpad_def, leftpad_def]
        have e1 : t + 1 - (natToDigitList (n % 10 ^ t)).length =
            (t - (natToDigitList (n % 10 ^ t)).length) + 1 := by omega
        rw [e1, List.replicate_succ]
        rfl
      · have hd9 : n / 10 ^ t % 10 < 10 := Nat.mod_lt _ (by omega)
        have hdec := natToDigitList_decompose t (n / 10 ^ t % 10) (n % 10 ^ t) ht hdpos
          hd9 hmodlt
        rw [hmodsucc, show n % 10 ^ t + 10 ^ t * (n / 10 ^ t % 10) =
          (n / 10 ^ t % 10) * 10 ^ t + n % 10 ^ t by ring, hdec,
          natToDigitList_single (n / 10 ^ t % 10) hd9]
        have hl1 : List.leftpad 1 '0' [digitChar (n / 10 ^ t % 10)] =
            [digitChar (n / 10 ^ t % 10)] := by
          rw [leftpad_def]
          simp
        have hlenc : (digitChar (n / 10 ^ t % 10) ::
            List.leftpad t '0' (natToDigitList (n % 10 ^ t))).length = t + 1 := by
          rw [List.length_cons, hFlen]
        have hlr : List.leftpad (t + 1) '0' (digitChar (n / 10 ^ t % 10) ::
            List.leftpad t '0' (natToDigitList (n % 10 ^ t))) =
            digitChar (n / 10 ^ t % 10) ::
              List.leftpad t '0' (natToDigitList (n % 10 ^ t)) := by
          rw [leftpad_def, hlenc, show t + 1 - (t + 1) = 0 by omega]
          simp
        rw [hl1, hlr]
        simp

lemma digitChar_ne_dash (d : Nat) : digitChar d ≠ '-' := by
  unfold digitChar
  split <;> decide

lemma natToDigitList_no_dash (n : Nat) : ∀ c ∈ natToDigitList n, c ≠ '-' := by
  induction n using Nat.strong_induction_on with
  | _ n ih =>
    intro c hc
    rw [natToDigitList_eq] at hc
    by_cases hn : n < 10
    · rw [if_pos hn] at hc
      simp only [List.mem_singleton] at hc
      subst hc
      exact digitChar_ne_dash n
    · rw [if_neg hn] at hc
      rcases List.mem_append.mp hc with hc | hc
      · exact ih (n / 10) (Nat.div_lt_self (by omega) (by omega)) c hc
      · simp only [List.mem_singleton] at hc
        subst hc
        exact digitChar_ne_dash _

lemma natToDigitList_head_ne_dash (n : Nat) :
    ((natToDigitList n).head? == some '-') = false := by
  rcases hD : natToDigitList n with _ | ⟨c, t⟩
  · rfl
  · have hc : c ∈ natToDigitList n := by rw [hD]; exact List.mem_cons_self ..
    have := natToDigitList_no_dash n c hc
    simpa using this

lemma mk_ne_empty (l : List Char) (h : l ≠ []) : String.mk l ≠ "" := by
  intro hcon
  exact h (by simpa using congrArg String.data hcon)

lemma leftpad_F_length (s n : Nat) (hs : 1 ≤ s) :
    (List.leftpad s '0' (natToDigitList (n % 10 ^ s))).length = s := by
  rw [List.leftpad_length]
  have hmodlt : n % 10 ^ s < 10 ^ s := Nat.mod_lt _ (by positivity)
  have := natToDigitList_length_le' s _ hs hmodlt
  omega

lemma formatDecimal_nonneg (v : Int) (s : Nat) (hv : ¬ v < 0) (hs : 1 ≤ s) :
    formatDecimal v s = natToString (v.natAbs / 10 ^ s) ++ "." ++
      String.mk (List.leftpad s '0' (natToDigitList (v.natAbs % 10 ^ s))) := by
  have hstr : intToString v = String.mk (natToDigitList v.toNat) := by
    rw [intToString, if_neg hv]
    rfl
  have habs : v.natAbs = v.toNat := by omega
  simp only [formatDecimal, hstr]
  rw [if_neg (show ¬ s = 0 by omega)]
  have hhead : ((String.mk (natToDigitList v.toNat)).data.head? == some '-') = false :=
    natToDigitList_head_ne_dash v.toNat
  rw [hhead]
  simp only [Bool.false_eq_true, if_false]
  have hpad : (padStartStr (String.mk (natToDigitList v.toNat)) (s + 1) '0').data =
      List.leftpad (s + 1) '0' (natToDigitList v.toNat) := rfl
  rw [hpad, leftpad_split s v.toNat hs]
  have hFlen := leftpad_F_length s v.toNat hs
  rw [List.length_append, hFlen,
    show (natToDigitList (v.toNat / 10 ^ s)).length + s - s =
      (natToDigitList (v.toNat / 10 ^ s)).length by omega,
    List.take_left, List.drop_left]
  rw [if_neg (mk_ne_empty _ (natToDigitList_ne_nil _))]
  rw [habs]
  rfl

lemma formatDecimal_neg (v : Int) (s : Nat) (hv : v < 0) (hs : 1 ≤ s) :
    formatDecimal v s = "-" ++ natToString (v.natAbs / 10 ^ s) ++ "." ++
      String.mk (List.leftpad s '0' (natToDigitList (v.natAbs % 10 ^ s))) := by
  have hstr : intToString v = "-" ++ String.mk (natToDigitList v.natAbs) := by
    rw [intToString, if_pos hv]
    rfl
  have hdata : ("-" ++ String.mk (natToDigitList v.natAbs)).data =
      '-' :: natToDigitList v.natAbs := rfl
  simp only [formatDecimal, hstr]
  rw [if_neg (show ¬ s = 0 by omega), hdata]
  have hhead : ((('-' : Char) :: natToDigitList v.natAbs).head? == some '-') = true := by
    simp
  rw [hhead]
  simp only [if_true]
  have htail : (('-' : Char) :: natToDigitList v.natAbs).tail = natToDigitList v.natAbs :=
    rfl
  rw [htail]
  have hpad : (padStartStr (String.mk (natToDigitList v.natAbs)) (s + 1) '0').data =
      List.leftpad (s + 1) '0' (natToDigitList v.natAbs) := rfl
  rw [hpad, leftpad_split s v.natAbs hs]
  have hFlen := leftpad_F_length s v.natAbs hs
  rw [List.length_append, hFlen,
    show (natToDigitList (v.natAbs / 10 ^ s)).length + s - s =
      (natToDigitList (v.natAbs / 10 ^ s)).length by omega,
    List.take_left, List.drop_left]
  rw [if_neg (mk_ne_empty _ (natToDigitList_ne_nil _))]
  rfl

/-- C8: decimal scaling.  For every integer `v` and scale `s`: scale 0
renders the plain decimal string; a positive scale splits the zero-padded
digit string of `|v|` into the digits of `|v| / 10^s`, a dot, and the
`s`-digit zero-padded rendering of `|v| mod 10^s`, with the sign
reattached — so 12345 at scale 2 renders "123.45" and -5 renders
"-0.05". -/
theorem C8_formatDecimal :
    (∀ (v : Int) (s : Nat), 1 ≤ s →
      formatDecimal v s =
        (if v < 0 then "-" else "") ++ natToString (v.natAbs / 10 ^ s) ++ "." ++
          String.mk (List.leftpad s '0' (natToDigitList (v.natAbs % 10 ^ s)))) ∧
    (∀ v : Int, formatDecimal v 0 = intToString v) ∧
    formatDecimal 12345 2 = "123.45" ∧ formatDecimal (-5) 2 = "-0.05" := by
  refine ⟨?_, ?_, by decide, by decide⟩
  · intro v s hs
    by_cases hv : v < 0
    · rw [formatDecimal_neg v s hv hs, if_pos hv]
    · rw [formatDecimal_nonneg v s hv hs, if_neg hv]
      rfl
  · intro v
    simp [formatDecimal]

/-- C8 witness: the scaling law applied at `v = 100`, `s = 3`. -/
theorem C8_formatDecimal_witness : formatDecimal 100 3 = "0.100" := by
  have h := C8_formatDecimal.1 100 3 (by omega)
  rw [h]
  decide

/-- C7: the statistics formatter is total and defensive.  For all host
facilities and inputs it returns a string; each fixed-width physical
type (INT32 code 1, INT64 code 2, FLOAT code 4, DOUBLE code 5) given
fewer bytes than its width yields the "N/A" sentinel before any decode;
any exception escaping the decode body results in the bounded 16-byte
hex rendering of the value instead of propagating — demonstrated
concretely with a throwing `toLocaleString` host. -/
theorem C7_formatStatValue_defensive (H : FormatterHosts) :
    (∀ value? meta? li, ∃ out : String, formatStatValue H value? meta? li = out) ∧
    (∀ value li, value.length < 4 →
       formatStatValue H (some value) (some 1) li = "N/A") ∧
    (∀ value li, value.length < 8 →
       formatStatValue H (some value) (some 2) li = "N/A") ∧
    (∀ value li, value.length < 4 →
       formatStatValue H (some value) (some 4) li = "N/A") ∧
    (∀ value li, value.length < 8 →
       formatStatValue H (some value) (some 5) li = "N/A") ∧
    (∀ value t li, formatStatValueBody H value t li = .error () →
       formatStatValue H (some value) (some t) li = hexTruncated value) ∧
    formatStatValue ⟨fun _ => .error (), fun _ => .error (), fun _ => .error (),
        fun _ => none, fun _ => none, fun _ => "", fun _ _ => "", fun _ _ => ""⟩
      (some [1, 0, 0, 0]) (some 1) ⟨none, 0, none⟩ = "01 00 00 00" := by
  refine ⟨fun value? meta? li => ⟨_, rfl⟩, ?_, ?_, ?_, ?_, ?_, by decide⟩
  · intro value li h
    simp [formatStatValue, formatStatValueBody, getTypeName, h]
  · intro value li h
    simp [formatStatValue, formatStatValueBody, getTypeName, h]
  · intro value li h
    simp [formatStatValue, formatStatValueBody, getTypeName, h]
  · intro value li h
    simp [formatStatValue, formatStatValueBody, getTypeName, h]
  · intro value t li h
    simp only [formatStatValue, h]

/-- C7 witness: the INT32 short-width guard at a concrete host set and
the 1-byte value `[9]`. -/
theorem C7_formatStatValue_defensive_witness :
    formatStatValue ⟨fun _ => .error (), fun _ => .error (), fun _ => .error (),
        fun _ => none, fun _ => none, fun _ => "", fun _ _ => "", fun _ _ => ""⟩
      (some [9]) (some 1) ⟨none, 0, none⟩ = "N/A" :=
  (C7_formatStatValue_defensive ⟨fun _ => .error (), fun _ => .error (),
      fun _ => .error (), fun _ => none, fun _ => none, fun _ => "", fun _ _ => "",
      fun _ _ => ""⟩).2.1 [9] ⟨none, 0, none⟩ (by decide)

end Parquetastic
